import Mathlib

/-!
Verification development for the topic-and-stance layer of the Lumina backend
(`backend/app/services/topic_layer.py`, `backend/app/services/utils.py`,
`backend/app/services/llm_client.py`, `backend/app/main.py`).

The Python code is shallowly embedded:
* text is `String` / `List Char`; Python `re.sub(r"\s+", " ", ...)`, `.strip()`,
  `.lower()` and friends become explicit character-list functions;
* machine floats become exact rationals `ℚ` (the centroid claims are stated
  "in exact arithmetic");
* the cosine similarity computed by numpy / pgvector (`1 - (a <=> b)`) is
  abstracted as an explicit function argument `cos : Vec → Vec → ℚ`; concrete
  instantiations in witnesses use the dot product on unit vectors, where the
  dot product coincides with the true cosine;
* the SQLAlchemy session is a record `Db` of row lists; SQL queries become
  filter / sort / take over those lists;
* the embedding and chat oracles are a record `Oracle` of response functions;
  the pairwise-relation oracle is fallible (`Except Unit _`), matching the fact
  that `chat_json` raises on transport failure or timeout;
* Python exceptions become `Except` results, and the FastAPI handlers map them
  to HTTP status codes exactly as `main.py` does.
-/

namespace Lumina

/-! ## Characters and Python-style string helpers (services/utils.py) -/

/-- Python regex `\s`: space, tab, newline, carriage return, vertical tab, form feed. -/
def isWsChar (c : Char) : Bool :=
  c = ' ' || c = '\t' || c = '\n' || c = '\r' || c = Char.ofNat 11 || c = Char.ofNat 12

/-- Terminator characters of the class `[.!?]`. -/
def isTermChar (c : Char) : Bool :=
  c = '.' || c = '!' || c = '?'

/-- Helper for `re.sub(r"\s+", " ", s)`: each maximal whitespace run becomes one space.
The boolean records whether the previous character was part of a whitespace run. -/
def collapseWsAux : Bool → List Char → List Char
  | _, [] => []
  | inWs, c :: cs =>
    if isWsChar c then
      if inWs then collapseWsAux true cs else ' ' :: collapseWsAux true cs
    else c :: collapseWsAux false cs

/-- Python `re.sub(r"\s+", " ", s)`. -/
def collapseWs (s : List Char) : List Char := collapseWsAux false s

/-- Python `s.strip()`. -/
def stripChars (s : List Char) : List Char :=
  ((s.dropWhile (fun c => isWsChar c)).reverse.dropWhile (fun c => isWsChar c)).reverse

/-- Python `s.lower()` (ASCII payloads). -/
def lowerChars (s : List Char) : List Char := s.map Char.toLower

/-- Python `re.sub(r"[.!?]+$", "", s)` / SQL `regexp_replace(text, '[.!?]+$', '', 'g')`:
drop the maximal trailing run of terminators. -/
def stripTrailingTerm (s : List Char) : List Char :=
  (s.reverse.dropWhile (fun c => isTermChar c)).reverse

/-- Python `s.endswith((".", "!", "?"))`. -/
def endsWithTerm (s : List Char) : Bool :=
  match s.reverse with
  | [] => false
  | c :: _ => isTermChar c

/-- `normalize_insight_text` (services/utils.py lines 5-9):
collapse whitespace, strip, and append `.` unless the text already ends in
`.`, `!` or `?`. -/
def normalizeInsightText (t : String) : String :=
  let cleaned := stripChars (collapseWs t.toList)
  if endsWithTerm cleaned then String.mk cleaned else String.mk (cleaned ++ ['.'])

/-- `insight_text_key` (services/utils.py lines 12-15):
`re.sub(r"[.!?]+$", "", re.sub(r"\s+", " ", text.strip().lower()))`. -/
def insightTextKey (t : String) : String :=
  String.mk (stripTrailingTerm (collapseWs (lowerChars (stripChars t.toList))))

/-- The SQL key expression used by the duplicate lookup in `ingest_idea` and by
the unique index `insights_text_norm_uidx`:
`lower(regexp_replace(regexp_replace(text, '[.!?]+$', '', 'g'), '\s+', ' ', 'g'))`. -/
def sqlTextKey (t : String) : String :=
  String.mk (lowerChars (collapseWs (stripTrailingTerm t.toList)))

/-- Character count of a string, Python `len`. -/
def charLen (t : String) : ℕ := t.toList.length

/-- Python `s[:n]` on strings. -/
def strTake (t : String) (n : ℕ) : String := String.mk (t.toList.take n)

/-! ## Vector ops (topic_layer.py lines 18-35) -/

/-- Embedding vectors; float32 arrays are modelled with exact rationals. -/
abbrev Vec := List ℚ

/-- Pointwise sum of two vectors (numpy `+` at equal shapes). -/
def vadd (a b : Vec) : Vec := List.zipWith (· + ·) a b

/-- Scalar multiple of a vector. -/
def smulQ (r : ℚ) (v : Vec) : Vec := v.map (fun x => r * x)

/-- Dot product; on unit vectors this is exactly the cosine similarity. -/
def dotQ (a b : Vec) : ℚ := (List.zipWith (· * ·) a b).sum

/-- Sum of a nonempty list of vectors, seeded with the first element so that no
zero vector of unknown dimension is needed. -/
def vsum1 (v : Vec) (vs : List Vec) : Vec := vs.foldl vadd v

/-- `_running_mean` (topic_layer.py lines 22-26):
`(ov * old_n + nv) / max(old_n + 1, 1)` elementwise. -/
def runningMean (old : Vec) (old_n : ℕ) (x : Vec) : Vec :=
  List.zipWith (fun o v => (o * old_n + v) / (max (old_n + 1) 1 : ℕ)) old x

/-- `_normalize_stance_label` (topic_layer.py lines 38-44). -/
def normalizeStanceLabel (value : Option String) : String :=
  let raw := String.mk (lowerChars (stripChars (value.getD "").toList))
  if raw = "con" || raw = "contra" || raw = "against" || raw = "opposed" then "con"
  else if raw = "pro" || raw = "support" || raw = "supportive" || raw = "in favor" then "pro"
  else "neutral"

/-! ## Data model (models.py), restricted to the columns the topic layer reads -/

/-- One JSON metadata value. -/
inductive MVal where
  | str (s : String)
  | num (q : ℚ)
  | strs (l : List String)
deriving DecidableEq

/-- A JSON object, as an association list (first binding of a key wins on lookup). -/
abbrev Meta := List (String × MVal)

/-- Python `d.get(k)`. -/
def metaLookup (m : Meta) (k : String) : Option MVal :=
  (m.find? (fun kv => kv.1 = k)).map (fun kv => kv.2)

/-- Python `merged = dict(base); merged.update(incoming)`: incoming keys
overwrite.  The model moves overwritten keys to the end; lookups agree with the
Python dict. -/
def dictUpdate (base incoming : Meta) : Meta :=
  base.filter (fun kv => ¬ incoming.any (fun kv2 => kv2.1 = kv.1)) ++ incoming

/-- One stance bucket inside `Topic.stance_centroids_json`: the code reads
`n_points` with default 0 and `centroid`, which may be absent or not a list
(modelled by `none`). -/
structure StanceBucket where
  n_points : ℤ
  centroid : Option Vec
deriving DecidableEq

abbrev StanceMap := List (String × StanceBucket)

def stanceMapLookup (m : StanceMap) (k : String) : Option StanceBucket :=
  (m.find? (fun kv => kv.1 = k)).map (fun kv => kv.2)

def stanceMapHas (m : StanceMap) (k : String) : Bool :=
  m.any (fun kv => kv.1 = k)

/-- Replace the binding of `k` (or append it). -/
def stanceMapSet (m : StanceMap) (k : String) (b : StanceBucket) : StanceMap :=
  if stanceMapHas m k then m.map (fun kv => if kv.1 = k then (k, b) else kv)
  else m ++ [(k, b)]

/-- A `topics` row.  Timestamp bookkeeping columns are omitted; nothing the
verified operations decide on reads them. -/
structure Topic where
  id : ℕ
  level : ℕ
  name : String
  centroid_embedding : Vec
  n_points : ℕ
  parent_topic_id : Option ℕ
  stance_centroids : StanceMap
deriving DecidableEq

/-- An `insights` row, restricted to the columns the topic layer reads. -/
structure Insight where
  id : ℕ
  user_id : Option ℕ
  text : String
  created_at : ℕ
  embedding : Vec
  cluster_id : String
  topic_id : Option ℕ
  subtopic_id : Option ℕ
  stance_label : String
  stance_confidence : ℚ
  metadata : Meta
deriving DecidableEq

/-- An `edges` row; primary key `(src, dst)`. -/
structure Edge where
  src : ℕ
  dst : ℕ
  weight : ℚ
  edge_type : String
deriving DecidableEq

/-- An `idea_relations` row; primary key `(src_id, dst_id)`. -/
structure IdeaRelation where
  src_id : ℕ
  dst_id : ℕ
  relation_label : String
  confidence : ℚ
deriving DecidableEq

/-- The database session state.  Row lists are kept in insertion order
(`created_at` ascending); `nextId` models the id generator. -/
structure Db where
  insights : List Insight
  topics : List Topic
  edges : List Edge
  relations : List IdeaRelation
  nextId : ℕ
deriving DecidableEq

/-- The configuration surface (settings.py), restricted to the keys the topic
layer reads, with the shipped defaults. -/
structure Settings where
  topic_similarity_threshold : ℚ
  subtopic_similarity_threshold : ℚ
  topic_neighbor_top_k : ℕ
  stance_confidence_margin : ℚ
  opposing_alpha : ℚ
  fallback_similarity_floor : ℚ
  retrieval_candidate_pool : ℕ
deriving DecidableEq

def defaultSettings : Settings :=
  { topic_similarity_threshold := 62/100
    subtopic_similarity_threshold := 70/100
    topic_neighbor_top_k := 8
    stance_confidence_margin := 4/100
    opposing_alpha := 65/100
    fallback_similarity_floor := 33/100
    retrieval_candidate_pool := 600 }

/-! ## Topic store (topic_layer.py lines 47-230) -/

def findTopic (topics : List Topic) (i : ℕ) : Option Topic :=
  topics.find? (fun t => t.id = i)

def findInsight (db : Db) (i : ℕ) : Option Insight :=
  db.insights.find? (fun x => x.id = i)

/-- `_topic_by_name` (lines 114-120): case-insensitive exact-name match within
the `(level, parent)` scope; `query.first()` is the first matching row. -/
def topicByName (topics : List Topic) (level : ℕ) (name : String) (parent : Option ℕ) : Option Topic :=
  topics.find? (fun t =>
    t.level = level && String.mk (lowerChars t.name.toList) = String.mk (lowerChars name.toList)
      && t.parent_topic_id = parent)

/-- `_nearest_topic` (lines 47-66): the topic of the `(level, parent)` scope with
maximal similarity `cos` to the embedding (SQL `ORDER BY distance ASC LIMIT 1`;
ties resolve to the earliest row). -/
def nearestTopic (cos : Vec → Vec → ℚ) (topics : List Topic) (e : Vec) (level : ℕ)
    (parent : Option ℕ) : Option (Topic × ℚ) :=
  (topics.filter (fun t => t.level = level && t.parent_topic_id = parent)).foldl
    (fun acc t =>
      match acc with
      | none => some (t, cos t.centroid_embedding e)
      | some (_, s) =>
        if s < cos t.centroid_embedding e then some (t, cos t.centroid_embedding e) else acc)
    none

/-- Replace a topic row in place (the session object identity). -/
def replaceTopic (topics : List Topic) (t' : Topic) : List Topic :=
  topics.map (fun t => if t.id = t'.id then t' else t)

/-- `_create_topic` (lines 155-168): new row with `centroid = embedding`,
`n_points = 1`, empty stance map, name truncated to 200 characters. -/
def createTopic (db : Db) (level : ℕ) (name : String) (e : Vec) (parent : Option ℕ) :
    Topic × Db :=
  let t : Topic :=
    { id := db.nextId, level := level, name := strTake name 200, centroid_embedding := e
      n_points := 1, parent_topic_id := parent, stance_centroids := [] }
  (t, { db with topics := db.topics ++ [t], nextId := db.nextId + 1 })

/-- `_get_stance_bucket` (lines 191-197): the bucket for the label, falling back
to the legacy `contra` key when asked for `con`; otherwise the empty dict. -/
def getStanceBucket (t : Topic) (label : String) : StanceBucket :=
  match stanceMapLookup t.stance_centroids label with
  | some b => b
  | none =>
    if label = "con" then
      match stanceMapLookup t.stance_centroids "contra" with
      | some b => b
      | none => ⟨0, none⟩
    else ⟨0, none⟩

/-- `_get_stance_centroid` (lines 200-205): the bucket centroid when it is a
nonempty list. -/
def getStanceCentroid (t : Topic) (label : String) : Option Vec :=
  match (getStanceBucket t label).centroid with
  | some c => if c = [] then none else some c
  | none => none

/-- `_update_topic_centroid` (lines 208-211): running mean and `n_points + 1`. -/
def updateTopicCentroid (t : Topic) (e : Vec) : Topic :=
  { t with centroid_embedding := runningMean t.centroid_embedding t.n_points e
           n_points := t.n_points + 1 }

/-- `_update_stance_centroid` (lines 214-230): reinitialize the bucket at
`{n_points := 1, centroid := e}` when empty or malformed, else running mean;
a legacy `contra` key is deleted when writing `con`. -/
def updateStanceCentroid (t : Topic) (e : Vec) (label : String) : Topic :=
  let bucket := getStanceBucket t label
  let bucket' :=
    match bucket.centroid with
    | none => StanceBucket.mk 1 (some e)
    | some c =>
      if bucket.n_points ≤ 0 then StanceBucket.mk 1 (some e)
      else StanceBucket.mk (bucket.n_points + 1) (some (runningMean c bucket.n_points.toNat e))
  let m := stanceMapSet t.stance_centroids label bucket'
  let m := if label = "con" then m.filter (fun kv => ¬ kv.1 = "contra") else m
  { t with stance_centroids := m }

/-- `_upsert_topic_level` (lines 171-188): name match first, then nearest topic
at or above the threshold, else create. -/
def upsertTopicLevel (cos : Vec → Vec → ℚ) (db : Db) (e : Vec) (level : ℕ) (name : String)
    (parent : Option ℕ) (threshold : ℚ) : Topic × Db :=
  match topicByName db.topics level name parent with
  | some byName =>
    let t' := updateTopicCentroid byName e
    (t', { db with topics := replaceTopic db.topics t' })
  | none =>
    match nearestTopic cos db.topics e level parent with
    | some (nearest, similarity) =>
      if threshold ≤ similarity then
        let t' := updateTopicCentroid nearest e
        (t', { db with topics := replaceTopic db.topics t' })
      else createTopic db level name e parent
    | none => createTopic db level name e parent

/-- The centroid lookup of `_assign_stance` (lines 239-244): the level-3 bucket,
falling back per stance to the level-2 parent's bucket. -/
def stanceCentroidWithParent (topic : Topic) (parent : Option Topic) (label : String) :
    Option Vec :=
  match getStanceCentroid topic label with
  | some c => some c
  | none => match parent with | some p => getStanceCentroid p label | none => none

/-- `_assign_stance` (lines 233-253): centroid score when both a pro and a con
centroid are available on the level-3 topic (falling back per stance to the
level-2 parent); otherwise the normalized LLM stance hint with score 0. -/
def assignStance (cos : Vec → Vec → ℚ) (s : Settings) (e : Vec) (topic : Topic)
    (parent : Option Topic) (hint : Option String) : String × ℚ :=
  match stanceCentroidWithParent topic parent "pro",
        stanceCentroidWithParent topic parent "con" with
  | some pc, some cc =>
    if |cos e pc - cos e cc| < s.stance_confidence_margin then ("neutral", cos e pc - cos e cc)
    else if 0 < cos e pc - cos e cc then ("pro", cos e pc - cos e cc)
    else ("con", cos e pc - cos e cc)
  | _, _ => (normalizeStanceLabel hint, 0)

/-! ## Idea store queries (topic_layer.py lines 256-456)

Every SQL nearest-neighbor query is `filter` + stable sort by similarity
descending (SQL orders by cosine distance ascending) + `LIMIT`. -/

/-- A query result row: the insight columns plus the computed `similarity`. -/
structure Row where
  idea : Insight
  similarity : ℚ
deriving DecidableEq

/-- Stable insertion into a descending-similarity list (later rows go after
earlier rows of equal similarity, like Python's stable sort). -/
def insertRowDesc (r : Row) : List Row → List Row
  | [] => [r]
  | x :: xs => if r.similarity < x.similarity then x :: insertRowDesc r xs else r :: x :: xs

/-- Stable sort by similarity descending. -/
def sortRowsDesc : List Row → List Row
  | [] => []
  | r :: rs => insertRowDesc r (sortRowsDesc rs)

/-- Stable insertion into an ascending-similarity list. -/
def insertRowAsc (r : Row) : List Row → List Row
  | [] => [r]
  | x :: xs => if x.similarity < r.similarity then x :: insertRowAsc r xs else r :: x :: xs

/-- Stable sort by similarity ascending (`rows.sort(key=similarity)`). -/
def sortRowsAsc : List Row → List Row
  | [] => []
  | r :: rs => insertRowAsc r (sortRowsAsc rs)

def rowsOf (cos : Vec → Vec → ℚ) (e : Vec) (l : List Insight) : List Row :=
  l.map (fun i => ⟨i, cos i.embedding e⟩)

/-- Shared query core: filter, order by similarity descending, limit. -/
def topRows (cos : Vec → Vec → ℚ) (db : Db) (e : Vec) (pred : Insight → Bool) (limit : ℕ) :
    List Row :=
  (sortRowsDesc (rowsOf cos e (db.insights.filter pred))).take limit

/-- `_nearest_ideas_same_subtree` (lines 301-327). -/
def nearestIdeasSameSubtree (cos : Vec → Vec → ℚ) (db : Db) (e : Vec) (subtopicId : ℕ)
    (excludeId : ℕ) (limit : ℕ) (stance : Option String) : List Row :=
  topRows cos db e
    (fun i => i.subtopic_id = some subtopicId && i.id ≠ excludeId &&
      (match stance with | none => true | some st => i.stance_label = st)) limit

/-- `_nearest_ideas_same_level2` (lines 330-357): join on the idea's subtopic
having the given level-2 parent. -/
def nearestIdeasSameLevel2 (cos : Vec → Vec → ℚ) (db : Db) (e : Vec) (level2Id : ℕ)
    (excludeId : ℕ) (limit : ℕ) (stance : Option String) : List Row :=
  topRows cos db e
    (fun i => i.id ≠ excludeId &&
      db.topics.any (fun t => some t.id = i.subtopic_id && t.parent_topic_id = some level2Id) &&
      (match stance with | none => true | some st => i.stance_label = st)) limit

/-- `_nearest_ideas_same_level1` (lines 360-386). -/
def nearestIdeasSameLevel1 (cos : Vec → Vec → ℚ) (db : Db) (e : Vec) (topicId : ℕ)
    (excludeId : ℕ) (limit : ℕ) (stance : Option String) : List Row :=
  topRows cos db e
    (fun i => i.topic_id = some topicId && i.id ≠ excludeId &&
      (match stance with | none => true | some st => i.stance_label = st)) limit

/-- `_nearest_ideas_with_filters` (lines 425-456).  An empty `topicIds` list and
an absent `midTopicId`/`subtopicId` disable the corresponding filter, exactly as
the Python truthiness checks do. -/
def nearestIdeasWithFilters (cos : Vec → Vec → ℚ) (db : Db) (e : Vec) (excludeId : ℕ)
    (limit : ℕ) (topicIds : List ℕ) (midTopicId : Option String) (subtopicId : Option ℕ) :
    List Row :=
  topRows cos db e
    (fun i => i.id ≠ excludeId &&
      (topicIds.isEmpty || topicIds.any (fun tid => i.topic_id = some tid)) &&
      (match midTopicId with
       | none => true
       | some m => metaLookup i.metadata "mid_topic_id" = some (MVal.str m)) &&
      (match subtopicId with
       | none => true
       | some sid => i.subtopic_id = some sid)) limit

/-! ## Merging (topic_layer.py lines 389-422, 479-501) -/

/-- One step of the dedupe-by-id loop: skip already-seen ids, else append. -/
def dedupeStep (acc : List Row × List ℕ) (r : Row) : List Row × List ℕ :=
  if r.idea.id ∈ acc.2 then acc else (acc.1 ++ [r], acc.2 ++ [r.idea.id])

/-- `_merge_candidates_hierarchical` (lines 406-422): consume scopes in order,
dedupe by id, sort the accumulated set by similarity descending after each
scope, and return the top `top_k` as soon as at least `top_k` accumulated. -/
def mergeHierAux (top_k : ℕ) : List (List Row) → List Row → List ℕ → List Row
  | [], merged, _ => merged.take top_k
  | scope :: rest, merged, seen =>
    let st := scope.foldl dedupeStep (merged, seen)
    let sorted := sortRowsDesc st.1
    if top_k ≤ sorted.length then sorted.take top_k else mergeHierAux top_k rest sorted st.2

def mergeCandidatesHierarchical (scopes : List (List Row)) (excludeIds : List ℕ) (top_k : ℕ) :
    List Row :=
  mergeHierAux top_k scopes [] excludeIds

/-- `_dedupe_and_trim` (lines 479-492): dedupe by normalized text key, skip
empty keys, stop once `top_k` rows are kept (the embedding column is dropped in
the Python output; the model keeps the full row). -/
def dedupeTrimAux (top_k : ℕ) : List Row → List String → List Row → List Row
  | [], _, out => out
  | r :: rs, seen, out =>
    let key := insightTextKey r.idea.text
    if key = "" ∨ key ∈ seen then dedupeTrimAux top_k rs seen out
    else
      let out' := out ++ [r]
      if top_k ≤ out'.length then out' else dedupeTrimAux top_k rs (seen ++ [key]) out'

def dedupeAndTrim (rows : List Row) (top_k : ℕ) : List Row :=
  dedupeTrimAux top_k rows [] []

/-- `_upsert_similarity_edges` helper: upsert on the `(src, dst)` primary key. -/
def upsertEdge (edges : List Edge) (e : Edge) : List Edge :=
  if edges.any (fun x => x.src = e.src && x.dst = e.dst) then
    edges.map (fun x => if x.src = e.src && x.dst = e.dst then e else x)
  else edges ++ [e]

/-- `_upsert_similarity_edges` (lines 495-501): mirrored `idea_similarity` edges
with weight `max(similarity, 0.01)`. -/
def upsertSimilarityEdges (edges : List Edge) (srcId : ℕ) (neighbors : List Row) : List Edge :=
  neighbors.foldl
    (fun es row =>
      let sim := max row.similarity (1/100)
      let es := upsertEdge es ⟨srcId, row.idea.id, sim, "idea_similarity"⟩
      upsertEdge es ⟨row.idea.id, srcId, sim, "idea_similarity"⟩)
    edges

/-! ## Retrieval engine (topic_layer.py lines 799-906) -/

/-- The ordered scope lists shared by `retrieve_supportive` (lines 806-840) and
`retrieve_opposing` (lines 853-887): level-3 subtree first (when the seed has a
level-3 anchor), then the level-2 siblings (when the level-3 topic resolves and
has a parent), then the whole level-1 topic, each filtered by `stanceFilter`. -/
def hierScopes (cos : Vec → Vec → ℚ) (db : Db) (seed : Insight) (topicId : ℕ)
    (stanceFilter : String) (perScopeLimit : ℕ) : List (List Row) :=
  (match seed.subtopic_id with
   | some sid =>
     [nearestIdeasSameSubtree cos db seed.embedding sid seed.id perScopeLimit
       (some stanceFilter)]
   | none => []) ++
  (match (match seed.subtopic_id with
          | some sid => findTopic db.topics sid
          | none => none) with
   | some st =>
     match st.parent_topic_id with
     | some pid =>
       [nearestIdeasSameLevel2 cos db seed.embedding pid seed.id perScopeLimit
         (some stanceFilter)]
     | none => []
   | none => []) ++
  [nearestIdeasSameLevel1 cos db seed.embedding topicId seed.id perScopeLimit
    (some stanceFilter)]

/-- `retrieve_supportive` (lines 799-842): leaves-first scopes filtered by the
seed's own stance, hierarchical merge, dedupe by text key. -/
def retrieveSupportive (cos : Vec → Vec → ℚ) (db : Db) (ideaId : ℕ) (top_k : ℕ) :
    List Row :=
  match findInsight db ideaId with
  | none => []
  | some seed =>
    match seed.topic_id with
    | none => []
    | some topicId =>
      dedupeAndTrim
        (mergeCandidatesHierarchical
          (hierScopes cos db seed topicId seed.stance_label (max (top_k * 4) 24))
          [seed.id] top_k)
        top_k

/-- The opposite-stance centroid used by the `retrieve_opposing` rescore
(lines 890-895): the level-3 topic's bucket, else its level-2 parent's. -/
def opposingCentroid (db : Db) (seed : Insight) (oppositeStance : String) : Option Vec :=
  match (match seed.subtopic_id with
         | some sid => findTopic db.topics sid
         | none => none) with
  | some st =>
    match getStanceCentroid st oppositeStance with
    | some c => some c
    | none =>
      match st.parent_topic_id with
      | some pid =>
        match findTopic db.topics pid with
        | some p => getStanceCentroid p oppositeStance
        | none => none
      | none => none
  | none => none

/-- The rescore-and-sort step of `retrieve_opposing` (lines 896-905): with an
opposite centroid, each candidate with a nonempty embedding is rescored to
`α·sim + (1−α)·cos(candidate, centroid)` and the rows are sorted descending;
without one, the rows are sorted ascending by seed similarity. -/
def opposingRescore (cos : Vec → Vec → ℚ) (a : ℚ) (oc : Option Vec) (rows : List Row) :
    List Row :=
  match oc with
  | some c =>
    sortRowsDesc (rows.map (fun r =>
      if r.idea.embedding = [] then r
      else { r with similarity := a * r.similarity + (1 - a) * cos r.idea.embedding c }))
  | none => sortRowsAsc rows

/-- `retrieve_opposing` (lines 845-906).  Note the opposite stance is computed
as `"con" if seed.stance_label == "pro" else "pro"`: every non-`pro` seed,
including a neutral one, is given opposite stance `pro`. -/
def retrieveOpposing (cos : Vec → Vec → ℚ) (s : Settings) (db : Db) (ideaId : ℕ)
    (top_k : ℕ) (alpha : Option ℚ) : List Row :=
  match findInsight db ideaId with
  | none => []
  | some seed =>
    match seed.topic_id with
    | none => []
    | some topicId =>
      dedupeAndTrim
        (opposingRescore cos (alpha.getD s.opposing_alpha)
          (opposingCentroid db seed (if seed.stance_label = "pro" then "con" else "pro"))
          (mergeCandidatesHierarchical
            (hierScopes cos db seed topicId
              (if seed.stance_label = "pro" then "con" else "pro") (max (top_k * 4) 24))
            [seed.id] top_k))
        top_k

/-! ## Oracle boundary (services/llm_client.py) -/

/-- The JSON reply of the topic-hierarchy classifier; absent keys are `none`. -/
structure HierReply where
  level1 : Option String
  level2 : Option String
  level3 : Option String

/-- The JSON reply of the pairwise relation classifier; absent keys are `none`. -/
structure RelReply where
  relation_label : Option String
  confidence : Option ℚ

/-- The embedding / chat oracle.  `embed` and `hierarchy` are reply functions of
the (normalized) text; `relate` is a reply function of the seed and candidate
texts and is fallible, since `chat_json` raises on transport failure or
timeout. -/
structure Oracle where
  embed : String → Vec
  hierarchy : String → HierReply
  relate : String → String → Except Unit RelReply

/-- Python `str(result.get(key, fallback) or fallback).strip() or default`. -/
def hierField (v : Option String) (fallback : String) (default : String) : String :=
  let raw := match v with | none => fallback | some s => if s = "" then fallback else s
  let stripped := String.mk (stripChars raw.toList)
  if stripped = "" then default else stripped

/-- `_classify_topic_hierarchy` result shaping (topic_layer.py lines 148-152):
fallback chain `level1 → "general"`, `level2 → level1`, `level3 → level2`,
then truncation to 80/80/120 characters. -/
def classifyTopicHierarchy (env : Oracle) (textValue : String) (topicLabel : String)
    (canonicalClaim : String) : String × String × String :=
  let r := env.hierarchy textValue
  let level1 := hierField r.level1 topicLabel "general"
  let level2 := hierField r.level2 topicLabel level1
  let level3 := hierField r.level3 canonicalClaim level2
  (strTake level1 80, strTake level2 80, strTake level3 120)

/-- `_classify_pair_relation` result shaping (topic_layer.py lines 504-525):
on transport failure the exception propagates; otherwise the label is
normalized into {support, oppose, neutral} (default `neutral`) and the
confidence is defaulted to 0 and clamped to [0, 1]. -/
def classifyPairRelation (reply : Except Unit RelReply) : Except Unit (String × ℚ) :=
  match reply with
  | .error e => .error e
  | .ok r =>
    let label := String.mk (lowerChars (stripChars (r.relation_label.getD "neutral").toList))
    let label := if label = "support" || label = "oppose" || label = "neutral" then label
      else "neutral"
    let confidence := max 0 (min 1 (r.confidence.getD 0))
    .ok (label, confidence)

/-! ## Relation cache and edges (topic_layer.py lines 528-632) -/

/-- `_get_cached_relation` (lines 528-529). -/
def getCachedRelation (db : Db) (srcId dstId : ℕ) : Option IdeaRelation :=
  db.relations.find? (fun r => r.src_id = srcId && r.dst_id = dstId)

/-- Upsert on the `(src_id, dst_id)` primary key (`db.merge`). -/
def upsertRelation (rels : List IdeaRelation) (r : IdeaRelation) : List IdeaRelation :=
  if rels.any (fun x => x.src_id = r.src_id && x.dst_id = r.dst_id) then
    rels.map (fun x => if x.src_id = r.src_id && x.dst_id = r.dst_id then r else x)
  else rels ++ [r]

/-- `_get_or_create_relation` (lines 532-559): cached row wins; otherwise call
the oracle (propagating its failure) and write the cache row. -/
def getOrCreateRelation (env : Oracle) (db : Db) (seed : Insight) (candidateId : ℕ)
    (candidateText : String) : Except Unit ((String × ℚ) × Db) :=
  match getCachedRelation db seed.id candidateId with
  | some cached => .ok ((cached.relation_label, cached.confidence), db)
  | none =>
    match classifyPairRelation (env.relate seed.text candidateText) with
    | .error e => .error e
    | .ok (label, confidence) =>
      let rels := upsertRelation db.relations ⟨seed.id, candidateId, label, confidence⟩
      .ok ((label, confidence), { db with relations := rels })

/-- `_upsert_relation_edges` (lines 562-579): mirrored support/oppose edges with
weight `clamp(0.55·confidence + 0.45·similarity, 0, 1)`. -/
def upsertRelationEdges (db : Db) (srcId dstId : ℕ) (label : String) (confidence : ℚ)
    (similarity : ℚ) (allowWrite : Bool) : Db :=
  if ¬ allowWrite then db
  else if ¬ (label = "support" || label = "oppose") then db
  else
    let weight := max 0 (min 1 (55/100 * confidence + 45/100 * similarity))
    let es := upsertEdge db.edges ⟨srcId, dstId, weight, label⟩
    { db with edges := upsertEdge es ⟨dstId, srcId, weight, label⟩ }

/-- A candidate row enriched with the relation judgment. -/
structure RelRow where
  row : Row
  relation_label : String
  relation_confidence : ℚ
deriving DecidableEq

/-- Strict lexicographic comparison on `(confidence, similarity)`. -/
def relLt (a b : RelRow) : Bool :=
  a.relation_confidence < b.relation_confidence ||
    (a.relation_confidence = b.relation_confidence && a.row.similarity < b.row.similarity)

/-- Stable sort by `(confidence, similarity)` descending. -/
def insertRelDesc (r : RelRow) : List RelRow → List RelRow
  | [] => [r]
  | x :: xs => if relLt r x then x :: insertRelDesc r xs else r :: x :: xs

def sortRelDesc : List RelRow → List RelRow
  | [] => []
  | r :: rs => insertRelDesc r (sortRelDesc rs)

/-- Stable sort of enriched rows by similarity descending. -/
def insertRelSimDesc (r : RelRow) : List RelRow → List RelRow
  | [] => [r]
  | x :: xs =>
    if r.row.similarity < x.row.similarity then x :: insertRelSimDesc r xs else r :: x :: xs

def sortRelSimDesc : List RelRow → List RelRow
  | [] => []
  | r :: rs => insertRelSimDesc r (sortRelSimDesc rs)

def dedupeTrimRelAux (top_k : ℕ) : List RelRow → List String → List RelRow → List RelRow
  | [], _, out => out
  | r :: rs, seen, out =>
    let key := insightTextKey r.row.idea.text
    if key = "" ∨ key ∈ seen then dedupeTrimRelAux top_k rs seen out
    else
      let out' := out ++ [r]
      if top_k ≤ out'.length then out' else dedupeTrimRelAux top_k rs (seen ++ [key]) out'

def dedupeAndTrimRel (rows : List RelRow) (top_k : ℕ) : List RelRow :=
  dedupeTrimRelAux top_k rows [] []

/-- The candidate loop of `retrieve_relation_buckets` (lines 601-622): an oracle
failure on any uncached pair aborts the whole operation (Python exception). -/
def relLoop (env : Oracle) (seed : Insight) :
    List Row → Db → List RelRow → List RelRow → List RelRow →
    Except Unit (Db × List RelRow × List RelRow × List RelRow)
  | [], db, sup, opp, neu => .ok (db, sup, opp, neu)
  | r :: rs, db, sup, opp, neu =>
    let inScope := r.idea.topic_id = seed.topic_id
    if ¬ inScope then relLoop env seed rs db sup opp neu
    else
      match getOrCreateRelation env db seed r.idea.id r.idea.text with
      | .error e => .error e
      | .ok ((label, confidence), db') =>
        let db'' := upsertRelationEdges db' seed.id r.idea.id label confidence r.similarity
          inScope
        let rr : RelRow := ⟨r, label, confidence⟩
        if label = "support" then relLoop env seed rs db'' (sup ++ [rr]) opp neu
        else if label = "oppose" then relLoop env seed rs db'' sup (opp ++ [rr]) neu
        else relLoop env seed rs db'' sup opp (neu ++ [rr])

/-- The three buckets of `retrieve_relation_buckets`. -/
structure RelBuckets where
  supportive : List RelRow
  opposing : List RelRow
  neutral : List RelRow
deriving DecidableEq

/-- `retrieve_relation_buckets` (lines 586-632).  The mutated session state is
returned next to the buckets; an oracle failure propagates as `.error`. -/
def retrieveRelationBuckets (env : Oracle) (cos : Vec → Vec → ℚ) (db : Db) (ideaId : ℕ)
    (top_k : ℕ) (candidatePool : ℕ) : Except Unit (RelBuckets × Db) :=
  match findInsight db ideaId with
  | none => .ok (⟨[], [], []⟩, db)
  | some seed =>
    match seed.topic_id with
    | none => .ok (⟨[], [], []⟩, db)
    | some topicId =>
      let candidates := nearestIdeasWithFilters cos db seed.embedding seed.id
        (max (top_k * 6) candidatePool) [topicId] none none
      match relLoop env seed candidates db [] [] [] with
      | .error e => .error e
      | .ok (db', sup, opp, neu) =>
        .ok (⟨dedupeAndTrimRel (sortRelDesc sup) top_k,
              dedupeAndTrimRel (sortRelDesc opp) top_k,
              dedupeAndTrimRel (sortRelSimDesc neu) top_k⟩, db')

/-! ## Ingestion orchestrator (topic_layer.py lines 635-776) -/

inductive IngestErr where
  | invalidLength
  | conflict
deriving DecidableEq

/-- Result of `ingest_idea`: the Python return value or the raised exception,
next to the session state and the number of oracle requests issued
(`embed_text` plus `chat_json`). -/
structure IngestOut where
  result : Except IngestErr (Insight × Topic × Topic)
  db : Db
  oracleCalls : ℕ

/-- The inline neighbor-scope merge of `ingest_idea` (lines 763-771): dedupe by
id scope after scope, stopping once `needed` rows are collected; unlike
`_merge_candidates_hierarchical` there is no sort between scopes. -/
def ingestScopeMerge (needed : ℕ) : List (List Row) → List Row → List ℕ → List Row
  | [], merged, _ => merged
  | scope :: rest, merged, seen =>
    let st := scope.foldl dedupeStep (merged, seen)
    if needed ≤ st.1.length then st.1 else ingestScopeMerge needed rest st.1 st.2

/-- The duplicate branch of `ingest_idea` (lines 642-667): look up an existing
row by the normalized text key (SQL orders by `created_at` ascending, i.e.
insertion order), merge nonempty incoming metadata (incoming keys overwrite),
and resolve the level-1 and level-3 anchors (with the parent-via-subtopic
fallback).  The second component is `some` when the duplicate branch returns;
a legacy row without a full hierarchy falls through (`existing_id = None`),
keeping the metadata merge in the session. -/
def dupCandidate (db : Db) (normalizedKey : String) (meta : Meta) :
    Db × Option (Insight × Topic × Topic) :=
  match db.insights.find? (fun i => sqlTextKey i.text = normalizedKey) with
  | none => (db, none)
  | some existing =>
    let existing' : Insight :=
      { existing with metadata :=
          if meta.isEmpty then existing.metadata else dictUpdate existing.metadata meta }
    let db1 : Db :=
      { db with insights :=
          if meta.isEmpty then db.insights
          else db.insights.map (fun j => if j.id = existing.id then existing' else j) }
    let parent :=
      match existing'.topic_id with
      | some tid => findTopic db1.topics tid
      | none => none
    let subtopic :=
      match existing'.subtopic_id with
      | some sid => findTopic db1.topics sid
      | none => none
    let parent :=
      match parent, subtopic with
      | none, some st =>
        match st.parent_topic_id with
        | some pid => findTopic db1.topics pid
        | none => none
      | p, _ => p
    match parent, subtopic with
    | some p, some st => (db1, some (existing', p, st))
    | _, _ => (db1, none)

/-- The non-duplicate tail of `ingest_idea` (lines 669-776): embed, classify the
hierarchy, upsert three levels, assign stance, update the level-3 stance
centroid, persist, and write neighbor similarity edges.  The flush raises the
unique-index violation when a concurrent transaction committed the same key
after the duplicate check (`concurrentKeys`) or a visible row already carries
the key (the legacy fall-through); topic upserts never touch `insights`, so the
check reads the `insights` of the argument state.  `ingest_idea` has no handler
for this error, so it propagates with the partial session state, which the
caller then rolls back. -/
def ingestFull (env : Oracle) (cos : Vec → Vec → ℚ) (concurrentKeys : List String)
    (s : Settings) (db0 : Db) (textValue : String) (userId : Option ℕ) (meta : Meta) :
    IngestOut :=
      let db := db0
      let embedding := env.embed textValue
      let h := classifyTopicHierarchy env textValue "" ""
      let r1 := upsertTopicLevel cos db embedding 1 h.1 none s.topic_similarity_threshold
      let level1 := r1.1
      let r2 := upsertTopicLevel cos r1.2 embedding 2 h.2.1 (some level1.id)
        s.subtopic_similarity_threshold
      let level2 := r2.1
      let r3 := upsertTopicLevel cos r2.2 embedding 3 h.2.2 (some level2.id)
        s.subtopic_similarity_threshold
      let level3 := r3.1
      let db := r3.2
      let hint :=
        match metaLookup meta "stance_hint" with
        | some (MVal.str v) => some v
        | _ => none
      let st := assignStance cos s embedding level3 (some level2) hint
      let stanceLabel := st.1
      let stanceScore := st.2
      let level3' := updateStanceCentroid level3 embedding stanceLabel
      let db := { db with topics := replaceTopic db.topics level3' }
      let idea : Insight :=
        { id := db.nextId, user_id := userId, text := textValue, created_at := db.nextId
          embedding := embedding, cluster_id := toString level3.id
          topic_id := some level1.id, subtopic_id := some level3.id
          stance_label := stanceLabel, stance_confidence := |stanceScore|
          metadata := dictUpdate
            [("stance_score", MVal.num stanceScore),
             ("mid_topic_id", MVal.str (toString level2.id)),
             ("topic_path", MVal.strs [level1.name, level2.name, level3.name]),
             ("level1", MVal.str h.1), ("level2", MVal.str h.2.1), ("level3", MVal.str h.2.2),
             ("retrieval_mode", MVal.str "topic_cosine_only")] meta }
      if sqlTextKey textValue ∈ concurrentKeys ∨
          ∃ j ∈ db0.insights, sqlTextKey j.text = sqlTextKey textValue then
        ⟨.error .conflict, db, 2⟩
      else
        let db := { db with insights := db.insights ++ [idea], nextId := db.nextId + 1 }
        let needed := max 6 s.topic_neighbor_top_k
        let scopes :=
          [nearestIdeasWithFilters cos db embedding idea.id needed [] none (some level3.id),
           nearestIdeasWithFilters cos db embedding idea.id needed [level1.id]
             (some (toString level2.id)) none,
           nearestIdeasWithFilters cos db embedding idea.id needed [level1.id] none none]
        let merged := ingestScopeMerge needed scopes [] []
        let neighbors := (sortRowsDesc merged).take s.topic_neighbor_top_k
        let db := { db with edges := upsertSimilarityEdges db.edges idea.id neighbors }
        ⟨.ok (idea, level1, level3'), db, 2⟩

/-- `ingest_idea` (lines 635-776): normalize and validate the length, try the
duplicate branch (no oracle calls there), else run the full pipeline. -/
def ingestIdea (env : Oracle) (cos : Vec → Vec → ℚ) (concurrentKeys : List String)
    (s : Settings) (db : Db) (textInput : String) (userId : Option ℕ) (meta : Meta) :
    IngestOut :=
  if charLen (normalizeInsightText textInput) < 5 ∨
      320 < charLen (normalizeInsightText textInput) then
    ⟨.error .invalidLength, db, 0⟩
  else
    match dupCandidate db (insightTextKey (normalizeInsightText textInput)) meta with
    | (db1, some r) => ⟨.ok r, db1, 0⟩
    | (db1, none) =>
      ingestFull env cos concurrentKeys s db1 (normalizeInsightText textInput) userId meta

/-! ## HTTP handlers (main.py) -/

/-- The body of `POST /ideas`. -/
structure IdeaPayload where
  text : String
  user_id : Option ℕ
  metadata : Meta

/-- The observable outcome of a request: status code, error detail, committed
session state, number of oracle requests issued. -/
structure EndpointOut where
  status : ℕ
  detail : String
  db : Db
  oracleCalls : ℕ

/-- The `str(exc)` detail carried by the `HTTPException`. -/
def ingestErrMessage : IngestErr → String
  | .invalidLength => "Idea text must be between 5 and 320 characters."
  | .conflict => "IntegrityError: duplicate key value violates unique index"

/-- `create_idea`, the `POST /ideas` handler (main.py lines 176-189): every
exception raised by `ingest_idea` — the length `ValueError` included — is
re-raised as HTTP 500, and the transaction is only committed on success. -/
def createIdea (env : Oracle) (cos : Vec → Vec → ℚ) (concurrentKeys : List String)
    (s : Settings) (db : Db) (payload : IdeaPayload) : EndpointOut :=
  match (ingestIdea env cos concurrentKeys s db payload.text payload.user_id
      payload.metadata).result with
  | .error e => ⟨500, ingestErrMessage e, db,
      (ingestIdea env cos concurrentKeys s db payload.text payload.user_id
        payload.metadata).oracleCalls⟩
  | .ok _ => ⟨200, "",
      (ingestIdea env cos concurrentKeys s db payload.text payload.user_id
        payload.metadata).db,
      (ingestIdea env cos concurrentKeys s db payload.text payload.user_id
        payload.metadata).oracleCalls⟩

/-- `relations`, the `GET /relations` handler (main.py lines 277-290): only a
malformed UUID is caught; any error raised by `retrieve_relation_buckets`
propagates as HTTP 500 and nothing is committed. -/
def relationsEndpoint (env : Oracle) (cos : Vec → Vec → ℚ) (db : Db) (ideaId : ℕ)
    (top_k : ℕ) (candidatePool : ℕ) : EndpointOut :=
  match retrieveRelationBuckets env cos db ideaId top_k candidatePool with
  | .error _ => ⟨500, "Internal Server Error", db, 0⟩
  | .ok (_, db') => ⟨200, "", db', 0⟩

/-! ## Rebalance job (topic_layer.py lines 1006-1053)

`reclusterParent` is the re-partition body of `run_periodic_recluster`
(lines 1016-1050), executed for a level-1 parent once the member-count and
entropy gates have passed.  The float-computed cluster count
`k = clamp(round(sqrt(n/6)), 2, 8)` and the seeded numpy k-means labels are
passed in as parameters. -/

/-- Apply `f` to the list entry at position `idx` (in-place mutation of one of
the `new_children` session objects). -/
def updTopicAt : List Topic → ℕ → (Topic → Topic) → List Topic
  | [], _, _ => []
  | t :: ts, 0, f => f t :: ts
  | t :: ts, n + 1, f => t :: updTopicAt ts n f

/-- Creation of the `idx`-th new level-2 child (lines 1026-1039): centroid is
the cluster mean (`vectors[labels == idx].mean(axis=0)`, the numpy mask being
the label-filtered zip of the member ideas' embeddings) or the first member
embedding of the parent's idea list when the cluster is empty, and `n_points`
is overwritten with the member count right after `_create_topic` set it to 1. -/
def reclusterChildInit (parentId : ℕ) (parentName : String) (startId : ℕ)
    (ideas : List Insight) (labels : List ℕ) (idx : ℕ) : Topic :=
  let members := ((ideas.zip labels).filter (fun p => p.2 = idx)).map
    (fun p => p.1.embedding)
  let centroid :=
    match members with
    | [] => (ideas.map (fun i => i.embedding)).headD []
    | v :: vs => smulQ (1 / ((vs.length + 1 : ℕ) : ℚ)) (vsum1 v vs)
  { id := startId + idx, level := 2
    name := strTake (parentName ++ " / cluster " ++ toString (idx + 1)) 200
    centroid_embedding := centroid, n_points := members.length
    parent_topic_id := some parentId, stance_centroids := [] }

/-- One member reassignment step on its child (lines 1041-1049): running-mean
centroid update, plus the stance bucket when the normalized stance is pro/con. -/
def reclusterUpdateChild (idea : Insight) (c : Topic) : Topic :=
  let c1 := updateTopicCentroid c idea.embedding
  let st := normalizeStanceLabel (some idea.stance_label)
  if st = "pro" || st = "con" then updateStanceCentroid c1 idea.embedding st else c1

/-- The reassignment loop over `(idea, label)` pairs (lines 1041-1049). -/
def reclusterLoop (startId : ℕ) :
    List (Insight × ℕ) → List Insight → List Topic → List Insight × List Topic
  | [], accIns, children => (accIns, children)
  | (idea, label) :: rest, accIns, children =>
    let idea' := { idea with subtopic_id := some (startId + label)
                             cluster_id := toString (startId + label) }
    let children' := updTopicAt children label (reclusterUpdateChild idea)
    reclusterLoop startId rest (accIns ++ [idea']) children'

/-- The per-parent re-partition body of `run_periodic_recluster`
(lines 1016-1050). -/
def reclusterParent (db : Db) (parent : Topic) (k : ℕ)
    (kmeans : List Vec → ℕ → List ℕ) : Db :=
  let ideas := db.insights.filter (fun i => i.topic_id = some parent.id)
  let vectors := ideas.map (fun i => i.embedding)
  let labels := kmeans vectors k
  let zeroed := db.topics.map (fun t =>
    if t.level = 2 && t.parent_topic_id = some parent.id then { t with n_points := 0 } else t)
  let children := (List.range k).map (reclusterChildInit parent.id parent.name db.nextId
    ideas labels)
  let looped := reclusterLoop db.nextId (ideas.zip labels) [] children
  let insights' := db.insights.map (fun i =>
    match looped.1.find? (fun j => j.id = i.id) with
    | some j => j
    | none => i)
  { db with insights := insights', topics := zeroed ++ looped.2, nextId := db.nextId + k }

/-! ## Concrete fixtures for witnesses and counterexamples

All fixture embeddings are standard basis vectors, on which the rational dot
product `dotQ` coincides with the true cosine similarity. -/

def exTopicL1 : Topic := ⟨10, 1, "weather", [1], 2, none, []⟩

def exTopicL2 : Topic := ⟨11, 2, "seasons", [1], 2, some 10, []⟩

def exTopicL3 : Topic := ⟨12, 3, "winter", [1], 2, some 11, []⟩

/-- A stored idea with `stance_label = "neutral"`. -/
def exSeedNeutral : Insight :=
  ⟨1, none, "i am unsure about winters.", 1, [1], "12", some 10, some 12, "neutral", 0, []⟩

/-- A pro idea in the same level-3 subtree. -/
def exProIdea : Insight :=
  ⟨2, none, "i love winters.", 2, [1], "12", some 10, some 12, "pro", 0, []⟩

def exDbC1 : Db := ⟨[exSeedNeutral, exProIdea], [exTopicL1, exTopicL2, exTopicL3], [], [], 100⟩

/-- A healthy oracle. -/
def exOracle : Oracle :=
  ⟨fun _ => [1], fun _ => ⟨some "weather", some "seasons", some "winter"⟩,
   fun _ _ => .ok ⟨some "support", some (1/2)⟩⟩

/-- An oracle whose pairwise-relation chat call fails (timeout / transport). -/
def exOracleDown : Oracle :=
  ⟨fun _ => [1], fun _ => ⟨some "weather", some "seasons", some "winter"⟩,
   fun _ _ => .error ()⟩

def exDbEmpty : Db := ⟨[], [], [], [], 0⟩

/-- Relation-bucket fixture: a seed and one same-topic candidate, empty cache. -/
def exSeedRel : Insight :=
  ⟨1, none, "cats are great pets.", 1, [1], "12", some 10, some 12, "pro", 0, []⟩

def exCandRel : Insight :=
  ⟨2, none, "dogs are great pets.", 2, [1], "12", some 10, some 12, "pro", 0, []⟩

def exDbC4 : Db := ⟨[exSeedRel, exCandRel], [exTopicL1, exTopicL2, exTopicL3], [], [], 100⟩

def exRelCached : IdeaRelation := ⟨1, 2, "support", 9/10⟩

/-- The same fixture with the pair already cached. -/
def exDbC4Cached : Db :=
  ⟨[exSeedRel, exCandRel], [exTopicL1, exTopicL2, exTopicL3], [], [exRelCached], 100⟩

/-- A level-3 topic holding both a pro and a con stance centroid. -/
def exTopicStance : Topic :=
  ⟨12, 3, "winter", [1, 0], 2, some 11,
   [("pro", ⟨1, some [1, 0]⟩), ("con", ⟨1, some [0, 1]⟩)]⟩

/-- Duplicate-ingestion fixture: a fully-anchored stored idea. -/
def exIdeaDup : Insight :=
  ⟨1, none, "Remote work increases productivity.", 1, [1], "12", some 10, some 12,
   "neutral", 0, [("retrieval_mode", MVal.str "topic_cosine_only")]⟩

def exDbC6 : Db := ⟨[exIdeaDup], [exTopicL1, exTopicL2, exTopicL3], [], [], 100⟩

/-- Leaves-first fixture: a pro seed, two pro candidates in the same level-3
subtree, and one pro candidate reachable only through the level-1 scope. -/
def exSeedPro : Insight :=
  ⟨1, none, "alpha claim one.", 1, [1], "12", some 10, some 12, "pro", 0, []⟩

def exCandA : Insight :=
  ⟨2, none, "beta claim two.", 2, [1], "12", some 10, some 12, "pro", 0, []⟩

def exCandB : Insight :=
  ⟨3, none, "gamma claim three.", 3, [1], "12", some 10, some 12, "pro", 0, []⟩

def exCandL1Only : Insight :=
  ⟨4, none, "delta claim four.", 4, [1], "99", some 10, some 99, "pro", 0, []⟩

def exDbC7 : Db :=
  ⟨[exSeedPro, exCandA, exCandB, exCandL1Only], [exTopicL1, exTopicL2, exTopicL3], [], [], 100⟩

/-- Recluster fixture: a level-1 parent with two member ideas. -/
def exParentRec : Topic := ⟨20, 1, "economy", [2], 2, none, []⟩

def exIdeaRecA : Insight :=
  ⟨31, none, "economy claim a.", 31, [1], "20", some 20, some 21, "neutral", 0, []⟩

def exIdeaRecB : Insight :=
  ⟨32, none, "economy claim b.", 32, [3], "20", some 20, some 21, "neutral", 0, []⟩

def exDbRec : Db := ⟨[exIdeaRecA, exIdeaRecB], [exParentRec], [], [], 100⟩

/-! ## Helper lemmas: exact vector algebra -/

theorem smulQ_length (r : ℚ) (v : Vec) : (smulQ r v).length = v.length := by
  simp [smulQ]

theorem runningMean_length (c : Vec) (n : ℕ) (x : Vec) :
    (runningMean c n x).length = min c.length x.length := by
  simp [runningMean]

theorem smulQ_one (v : Vec) : smulQ 1 v = v := by
  simp [smulQ]

theorem smulQ_smulQ (a b : ℚ) (v : Vec) : smulQ a (smulQ b v) = smulQ (a * b) v := by
  induction v with
  | nil => rfl
  | cons x v ih =>
    show (a * (b * x)) :: smulQ a (smulQ b v) = (a * b * x) :: smulQ (a * b) v
    rw [ih, mul_assoc]

/-- The elementwise running mean, rescaled: `((n+1)) · μ' = n · μ + x`. -/
theorem smulQ_runningMean (c : Vec) (n : ℕ) (x : Vec) (hlen : x.length = c.length) :
    smulQ ((n + 1 : ℕ) : ℚ) (runningMean c n x) = vadd (smulQ (n : ℚ) c) x := by
  induction c generalizing x with
  | nil => cases x with
    | nil => rfl
    | cons _ _ => simp at hlen
  | cons o os ih =>
    cases x with
    | nil => simp at hlen
    | cons v vs =>
      simp only [List.length_cons, Nat.succ.injEq] at hlen
      simp only [runningMean, smulQ, vadd, List.zipWith_cons_cons, List.map_cons]
      refine congrArg₂ List.cons ?_ ?_
      · have hmax : max (n + 1) 1 = n + 1 := Nat.max_eq_left (Nat.succ_le_succ (Nat.zero_le n))
        rw [hmax]
        have hne : ((n + 1 : ℕ) : ℚ) ≠ 0 := by positivity
        field_simp
        ring
      · simpa [runningMean, smulQ, vadd] using ih vs hlen

/-- Folding single-sample centroid updates, in rescaled form: after consuming
`es`, `n_points` grows by `|es|` and the centroid times the new count equals
the old scaled centroid plus the sum of the new samples. -/
theorem foldl_updateTopicCentroid_spec (es : List Vec) :
    ∀ (t : Topic), (∀ e ∈ es, e.length = t.centroid_embedding.length) →
      (es.foldl updateTopicCentroid t).n_points = t.n_points + es.length ∧
      smulQ ((t.n_points + es.length : ℕ) : ℚ)
          (es.foldl updateTopicCentroid t).centroid_embedding =
        vsum1 (smulQ ((t.n_points : ℕ) : ℚ) t.centroid_embedding) es := by
  induction es with
  | nil => intro t _; exact ⟨rfl, rfl⟩
  | cons e es ih =>
    intro t hdim
    have hlen : e.length = t.centroid_embedding.length := hdim e (List.mem_cons_self e es)
    have hlen' : (updateTopicCentroid t e).centroid_embedding.length =
        t.centroid_embedding.length := by
      simp [updateTopicCentroid, runningMean_length, hlen]
    have hdim' : ∀ v ∈ es, v.length = (updateTopicCentroid t e).centroid_embedding.length := by
      intro v hv
      rw [hlen']
      exact hdim v (List.mem_cons_of_mem e hv)
    have hnp : (updateTopicCentroid t e).n_points = t.n_points + 1 := rfl
    obtain ⟨h1, h2⟩ := ih (updateTopicCentroid t e) hdim'
    refine ⟨?_, ?_⟩
    · simp only [List.foldl_cons, h1, hnp, List.length_cons]
      omega
    · simp only [List.foldl_cons]
      have hcount : t.n_points + (e :: es).length = (updateTopicCentroid t e).n_points +
          es.length := by
        simp [hnp]
        omega
      rw [hcount, h2, hnp]
      have hstep : smulQ ((t.n_points + 1 : ℕ) : ℚ) (updateTopicCentroid t e).centroid_embedding
          = vadd (smulQ ((t.n_points : ℕ) : ℚ) t.centroid_embedding) e := by
        simpa [updateTopicCentroid] using smulQ_runningMean t.centroid_embedding t.n_points e hlen
      rw [hstep]
      rfl

/-- C9 claim statement, first conjunct: `_running_mean` as an affine combination. -/
theorem runningMean_affine (c : Vec) (n : ℕ) (x : Vec) (hlen : x.length = c.length) :
    runningMean c n x = smulQ (1 / ((n + 1 : ℕ) : ℚ)) (vadd (smulQ (n : ℚ) c) x) := by
  have hne : ((n + 1 : ℕ) : ℚ) ≠ 0 := by positivity
  have h := smulQ_runningMean c n x hlen
  calc runningMean c n x
      = smulQ 1 (runningMean c n x) := (smulQ_one _).symm
    _ = smulQ (1 / ((n + 1 : ℕ) : ℚ) * ((n + 1 : ℕ) : ℚ)) (runningMean c n x) := by
        rw [one_div, inv_mul_cancel₀ hne]
    _ = smulQ (1 / ((n + 1 : ℕ) : ℚ)) (smulQ ((n + 1 : ℕ) : ℚ) (runningMean c n x)) :=
        (smulQ_smulQ _ _ _).symm
    _ = smulQ (1 / ((n + 1 : ℕ) : ℚ)) (vadd (smulQ (n : ℚ) c) x) := by rw [h]

/-- Cancel a nonzero scalar factor. -/
theorem smulQ_cancel (N : ℚ) (hN : N ≠ 0) (v w : Vec) (h : smulQ N v = w) :
    v = smulQ (1 / N) w := by
  calc v = smulQ 1 v := (smulQ_one v).symm
    _ = smulQ (1 / N * N) v := by rw [one_div, inv_mul_cancel₀ hN]
    _ = smulQ (1 / N) (smulQ N v) := (smulQ_smulQ _ _ _).symm
    _ = smulQ (1 / N) w := by rw [h]

/-- C9: the centroid update implements the running mean.  Given old mean `μ`
over `n ≥ 0` samples and new vector `x`, the new centroid is `(μ·n + x)/(n+1)`
and `n_points` becomes `n+1`; consequently, in exact arithmetic, after `N`
consecutive single-sample updates to a freshly created topic (the creating
embedding followed by `N−1` updates, `N = 1 + |es|`) the centroid equals
`(1/N) · Σ` of the `N` embeddings. -/
theorem C9_running_mean_centroid :
    (∀ (c : Vec) (n : ℕ) (x : Vec), x.length = c.length →
      runningMean c n x = smulQ (1 / ((n + 1 : ℕ) : ℚ)) (vadd (smulQ (n : ℚ) c) x)) ∧
    (∀ (t : Topic) (x : Vec), x.length = t.centroid_embedding.length →
      (updateTopicCentroid t x).n_points = t.n_points + 1 ∧
      (updateTopicCentroid t x).centroid_embedding =
        smulQ (1 / ((t.n_points + 1 : ℕ) : ℚ))
          (vadd (smulQ ((t.n_points : ℕ) : ℚ) t.centroid_embedding) x)) ∧
    (∀ (db : Db) (level : ℕ) (name : String) (parent : Option ℕ) (e : Vec) (es : List Vec),
      (∀ v ∈ es, v.length = e.length) →
      (es.foldl updateTopicCentroid (createTopic db level name e parent).1).n_points
          = 1 + es.length ∧
      (es.foldl updateTopicCentroid (createTopic db level name e parent).1).centroid_embedding
          = smulQ (1 / ((1 + es.length : ℕ) : ℚ)) (vsum1 e es)) := by
  refine ⟨fun c n x hlen => runningMean_affine c n x hlen, ?_, ?_⟩
  · intro t x hlen
    exact ⟨rfl, runningMean_affine t.centroid_embedding t.n_points x hlen⟩
  · intro db level name parent e es hdim
    have hdim' : ∀ v ∈ es, v.length = (createTopic db level name e parent).1.centroid_embedding.length := by
      intro v hv
      exact hdim v hv
    obtain ⟨h1, h2⟩ := foldl_updateTopicCentroid_spec es (createTopic db level name e parent).1 hdim'
    have hn1 : (createTopic db level name e parent).1.n_points = 1 := rfl
    have hc1 : (createTopic db level name e parent).1.centroid_embedding = e := rfl
    rw [hn1] at h1 h2
    rw [hc1] at h2
    refine ⟨h1, ?_⟩
    have hN : ((1 + es.length : ℕ) : ℚ) ≠ 0 := by positivity
    have hone : smulQ ((1 : ℕ) : ℚ) e = e := by
      rw [Nat.cast_one, smulQ_one]
    rw [hone] at h2
    exact smulQ_cancel _ hN _ _ h2

/-- C9 witness: all three conjuncts at concrete one-dimensional inputs;
three samples `[1], [2], [6]` average to `[3]`. -/
theorem C9_running_mean_centroid_witness :
    (runningMean [(1 : ℚ)] 1 [2] =
      smulQ (1 / ((1 + 1 : ℕ) : ℚ)) (vadd (smulQ ((1 : ℕ) : ℚ) [(1 : ℚ)]) [2])) ∧
    ((updateTopicCentroid exTopicL1 [5]).n_points = exTopicL1.n_points + 1) ∧
    (([[(2 : ℚ)], [6]].foldl updateTopicCentroid (createTopic exDbEmpty 1 "t" [1] none).1).n_points
        = 1 + 2 ∧
     ([[(2 : ℚ)], [6]].foldl updateTopicCentroid
        (createTopic exDbEmpty 1 "t" [1] none).1).centroid_embedding
        = smulQ (1 / ((1 + 2 : ℕ) : ℚ)) (vsum1 [1] [[2], [6]])) := by
  refine ⟨C9_running_mean_centroid.1 [(1 : ℚ)] 1 [2] (by decide), ?_, ?_⟩
  · exact (C9_running_mean_centroid.2.1 exTopicL1 [5] (by decide)).1
  · exact C9_running_mean_centroid.2.2 exDbEmpty 1 "t" none [1] [[2], [6]] (by decide)

/-- C5: stance assignment at ingestion.  When both a pro and a con stance
centroid are available (level-3 buckets, falling back per stance to level-2),
the score is `cos(e, pro) − cos(e, con)`; the label is `neutral` iff
`|score| < stance_confidence_margin`, otherwise `pro` when `score > 0` and
`con` otherwise.  When either centroid is missing, the label is the normalized
`metadata.stance_hint` (always one of pro/neutral/con; unrecognized values map
to neutral) and the score is 0, so the stored confidence `|score|` is 0. -/
theorem C5_assign_stance (cos : Vec → Vec → ℚ) (s : Settings) (e : Vec) (t : Topic)
    (pt : Option Topic) (hint : Option String) :
    (∀ pc cc, stanceCentroidWithParent t pt "pro" = some pc →
       stanceCentroidWithParent t pt "con" = some cc →
       (assignStance cos s e t pt hint).2 = cos e pc - cos e cc ∧
       ((assignStance cos s e t pt hint).1 = "neutral" ↔
         |cos e pc - cos e cc| < s.stance_confidence_margin) ∧
       (s.stance_confidence_margin ≤ |cos e pc - cos e cc| →
         (assignStance cos s e t pt hint).1 =
           if 0 < cos e pc - cos e cc then "pro" else "con")) ∧
    ((stanceCentroidWithParent t pt "pro" = none ∨
        stanceCentroidWithParent t pt "con" = none) →
      assignStance cos s e t pt hint = (normalizeStanceLabel hint, 0)) ∧
    (normalizeStanceLabel hint = "pro" ∨ normalizeStanceLabel hint = "neutral" ∨
      normalizeStanceLabel hint = "con") := by
  refine ⟨?_, ?_, ?_⟩
  · intro pc cc hpc hcc
    have key : assignStance cos s e t pt hint =
        if |cos e pc - cos e cc| < s.stance_confidence_margin then
          ("neutral", cos e pc - cos e cc)
        else if 0 < cos e pc - cos e cc then ("pro", cos e pc - cos e cc)
        else ("con", cos e pc - cos e cc) := by
      unfold assignStance
      rw [hpc, hcc]
    by_cases hm : |cos e pc - cos e cc| < s.stance_confidence_margin
    · rw [key, if_pos hm]
      exact ⟨rfl, by simp [hm], fun hge => absurd hm (not_lt.mpr hge)⟩
    · by_cases hpos : 0 < cos e pc - cos e cc
      · rw [key, if_neg hm, if_pos hpos]
        refine ⟨rfl, by simp [hm], fun _ => by rw [if_pos hpos]⟩
      · rw [key, if_neg hm, if_neg hpos]
        refine ⟨rfl, by simp [hm], fun _ => by rw [if_neg hpos]⟩
  · intro h
    unfold assignStance
    rcases h with h | h
    · rw [h]
    · rw [h]
      cases hp : stanceCentroidWithParent t pt "pro" with
      | none => rfl
      | some pc => rfl
  · unfold normalizeStanceLabel
    dsimp only
    split_ifs with h1 h2
    · right; right; rfl
    · left; rfl
    · right; left; rfl

/-- C5 witness: with unit basis vectors, `pro` centroid `[1,0]`, `con` centroid
`[0,1]` and embedding `[1,0]`, the score is 1 and the label is `pro`; a topic
without buckets falls back to the unrecognized hint, giving `neutral`, score 0. -/
theorem C5_assign_stance_witness :
    (assignStance dotQ defaultSettings [1, 0] exTopicStance (some exTopicL2) none).2 =
        dotQ [1, 0] [1, 0] - dotQ [1, 0] [0, 1] ∧
    (assignStance dotQ defaultSettings [1, 0] exTopicStance (some exTopicL2) none).1 = "pro" ∧
    assignStance dotQ defaultSettings [1] exTopicL3 (some exTopicL2) (some "unsure") =
      ("neutral", 0) := by
  have h := C5_assign_stance dotQ defaultSettings [1, 0] exTopicStance (some exTopicL2) none
  have hmain := h.1 [1, 0] [0, 1] (by decide) (by decide)
  refine ⟨hmain.1, ?_, ?_⟩
  · have hsc := hmain.2.2 (by with_unfolding_all decide)
    rw [hsc]
    with_unfolding_all decide
  · exact (C5_assign_stance dotQ defaultSettings [1] exTopicL3 (some exTopicL2)
      (some "unsure")).2.1 (Or.inl (by decide))


/-- C8: `_upsert_topic_level` resolves in a fixed order: a case-insensitive
exact-name match within the `(level, parent)` scope wins; otherwise the nearest
topic in scope is used when its similarity is at least the threshold; otherwise
a new topic is created with `centroid = embedding` and `n_points = 1`.  Matches
update the centroid with the running mean.  The thresholds ingestion passes
(`topic_similarity_threshold` for level 1, `subtopic_similarity_threshold` for
levels 2 and 3, visible in `ingestIdea`) default to 0.62 and 0.70. -/
theorem C8_upsert_topic_level (cos : Vec → Vec → ℚ) (db : Db) (e : Vec) (level : ℕ)
    (name : String) (parent : Option ℕ) (threshold : ℚ) :
    (∀ t, topicByName db.topics level name parent = some t →
      upsertTopicLevel cos db e level name parent threshold =
        (updateTopicCentroid t e,
         { db with topics := replaceTopic db.topics (updateTopicCentroid t e) })) ∧
    (∀ t sim, topicByName db.topics level name parent = none →
      nearestTopic cos db.topics e level parent = some (t, sim) → threshold ≤ sim →
      upsertTopicLevel cos db e level name parent threshold =
        (updateTopicCentroid t e,
         { db with topics := replaceTopic db.topics (updateTopicCentroid t e) })) ∧
    (topicByName db.topics level name parent = none →
      (∀ t sim, nearestTopic cos db.topics e level parent = some (t, sim) → sim < threshold) →
      upsertTopicLevel cos db e level name parent threshold = createTopic db level name e parent ∧
      (upsertTopicLevel cos db e level name parent threshold).1.centroid_embedding = e ∧
      (upsertTopicLevel cos db e level name parent threshold).1.n_points = 1) ∧
    (defaultSettings.topic_similarity_threshold = 62/100 ∧
      defaultSettings.subtopic_similarity_threshold = 70/100) := by
  refine ⟨?_, ?_, ?_, rfl, rfl⟩
  · intro t h
    unfold upsertTopicLevel
    rw [h]
  · intro t sim h1 h2 h3
    unfold upsertTopicLevel
    rw [h1, h2]
    dsimp only
    rw [if_pos h3]
  · intro h1 hlt
    have key : upsertTopicLevel cos db e level name parent threshold =
        createTopic db level name e parent := by
      unfold upsertTopicLevel
      rw [h1]
      cases hn : nearestTopic cos db.topics e level parent with
      | none => rfl
      | some p =>
        obtain ⟨t, sim⟩ := p
        dsimp only
        rw [if_neg (not_le.mpr (hlt t sim hn))]
    exact ⟨key, by rw [key]; rfl, by rw [key]; rfl⟩

/-- C8 witness: on an empty topic store a new topic is created with the
embedding as centroid and one point; on a store holding a level-1 topic named
`weather`, the name match wins and its centroid is running-mean updated. -/
theorem C8_upsert_topic_level_witness :
    (upsertTopicLevel dotQ exDbEmpty [1] 1 "general" none (62/100) =
        createTopic exDbEmpty 1 "general" [1] none ∧
      (upsertTopicLevel dotQ exDbEmpty [1] 1 "general" none (62/100)).1.centroid_embedding = [1] ∧
      (upsertTopicLevel dotQ exDbEmpty [1] 1 "general" none (62/100)).1.n_points = 1) ∧
    upsertTopicLevel dotQ exDbC1 [1] 1 "WEATHER" none (62/100) =
      (updateTopicCentroid exTopicL1 [1],
       { exDbC1 with topics := replaceTopic exDbC1.topics (updateTopicCentroid exTopicL1 [1]) }) := by
  constructor
  · exact (C8_upsert_topic_level dotQ exDbEmpty [1] 1 "general" none (62/100)).2.2.1
      (by decide) (fun t sim h => Option.noConfusion h)
  · exact (C8_upsert_topic_level dotQ exDbC1 [1] 1 "WEATHER" none (62/100)).1
      exTopicL1 (by decide)

/-- C2 counterexample: the text `"a    b"` (raw length 6, so it passes the
schema's `min_length=5`) normalizes to `"a b."` of length 4; `POST /ideas`
answers HTTP 500 — not 400 as claimed — because `create_idea` maps every
exception to 500. -/
theorem C2_invalid_length_counterexample :
    charLen (normalizeInsightText "a    b") < 5 ∧
    (createIdea exOracle dotQ [] defaultSettings exDbEmpty ⟨"a    b", none, []⟩).status = 500 ∧
    ¬ (createIdea exOracle dotQ [] defaultSettings exDbEmpty ⟨"a    b", none, []⟩).status = 400 := by
  refine ⟨by decide, ?_, ?_⟩ <;> with_unfolding_all decide

/-- C2 (amended): for a `POST /ideas` request whose text normalizes to fewer
than 5 or more than 320 characters, `ingest_idea` raises the length
`ValueError` before any oracle call or state change, and `create_idea` maps it
to HTTP 500 with the ValueError message; nothing is committed. -/
theorem C2_invalid_length_http500 (env : Oracle) (cos : Vec → Vec → ℚ)
    (concurrentKeys : List String) (s : Settings) (db : Db) (p : IdeaPayload)
    (h : charLen (normalizeInsightText p.text) < 5 ∨
      320 < charLen (normalizeInsightText p.text)) :
    (createIdea env cos concurrentKeys s db p).status = 500 ∧
    (createIdea env cos concurrentKeys s db p).detail =
      "Idea text must be between 5 and 320 characters." ∧
    (createIdea env cos concurrentKeys s db p).db = db ∧
    (createIdea env cos concurrentKeys s db p).oracleCalls = 0 := by
  have hing : ingestIdea env cos concurrentKeys s db p.text p.user_id p.metadata =
      ⟨.error .invalidLength, db, 0⟩ := by
    unfold ingestIdea
    rw [if_pos h]
  unfold createIdea
  rw [hing]
  exact ⟨rfl, rfl, rfl, rfl⟩

/-- C2 witness: the amended theorem applied at the concrete short text. -/
theorem C2_invalid_length_http500_witness :
    (createIdea exOracle dotQ [] defaultSettings exDbEmpty ⟨"a    b", none, []⟩).status = 500 ∧
    (createIdea exOracle dotQ [] defaultSettings exDbEmpty ⟨"a    b", none, []⟩).detail =
      "Idea text must be between 5 and 320 characters." ∧
    (createIdea exOracle dotQ [] defaultSettings exDbEmpty ⟨"a    b", none, []⟩).db = exDbEmpty ∧
    (createIdea exOracle dotQ [] defaultSettings exDbEmpty ⟨"a    b", none, []⟩).oracleCalls
      = 0 :=
  C2_invalid_length_http500 exOracle dotQ [] defaultSettings exDbEmpty ⟨"a    b", none, []⟩
    (Or.inl (by decide))

/-- Shared helper: with no visible duplicate, the duplicate branch yields
nothing and leaves the session untouched. -/
theorem dupCandidate_of_no_match (db : Db) (key : String) (meta : Meta)
    (h : db.insights.find? (fun i => sqlTextKey i.text = key) = none) :
    dupCandidate db key meta = (db, none) := by
  unfold dupCandidate
  rw [h]

/-- Shared helper: the flush of the full ingestion path propagates the
unique-index violation when the key was committed concurrently. -/
theorem ingestFull_conflict (env : Oracle) (cos : Vec → Vec → ℚ) (conc : List String)
    (s : Settings) (db0 : Db) (tv : String) (u : Option ℕ) (m : Meta)
    (h : sqlTextKey tv ∈ conc ∨ ∃ j ∈ db0.insights, sqlTextKey j.text = sqlTextKey tv) :
    (ingestFull env cos conc s db0 tv u m).result = .error .conflict ∧
    (ingestFull env cos conc s db0 tv u m).oracleCalls = 2 := by
  constructor <;> (simp only [ingestFull]; rw [if_pos h])

/-- C3 counterexample: a concurrent transaction committed the same normalized
key after the duplicate check; `ingest_idea` raises instead of re-reading the
surviving row, `POST /ideas` answers 500 and rolls back — the client sees the
conflict error instead of an idempotent success. -/
theorem C3_conflict_counterexample :
    (ingestIdea exOracle dotQ ["remote work increases productivity"] defaultSettings exDbEmpty
      "Remote work increases productivity" none []).result =
        Except.error IngestErr.conflict ∧
    (createIdea exOracle dotQ ["remote work increases productivity"] defaultSettings exDbEmpty
      ⟨"Remote work increases productivity", none, []⟩).status = 500 ∧
    (createIdea exOracle dotQ ["remote work increases productivity"] defaultSettings exDbEmpty
      ⟨"Remote work increases productivity", none, []⟩).db = exDbEmpty := by
  refine ⟨?_, ?_, ?_⟩ <;> with_unfolding_all rfl

/-- C3 (amended): `ingest_idea` has no handler for the unique-index violation:
when a concurrent duplicate wins the race between the duplicate check and the
flush, the `IntegrityError` propagates out of ingestion, `POST /ideas` maps it
to HTTP 500, and the transaction is rolled back; the surviving row is not
re-read and the caller does not see a success. -/
theorem C3_conflict_propagates (env : Oracle) (cos : Vec → Vec → ℚ) (conc : List String)
    (s : Settings) (db : Db) (p : IdeaPayload)
    (hlen : ¬ (charLen (normalizeInsightText p.text) < 5 ∨
      320 < charLen (normalizeInsightText p.text)))
    (hdup : db.insights.find?
      (fun i => sqlTextKey i.text = insightTextKey (normalizeInsightText p.text)) = none)
    (hconc : sqlTextKey (normalizeInsightText p.text) ∈ conc) :
    (ingestIdea env cos conc s db p.text p.user_id p.metadata).result =
      Except.error IngestErr.conflict ∧
    (createIdea env cos conc s db p).status = 500 ∧
    (createIdea env cos conc s db p).db = db := by
  have hing : ingestIdea env cos conc s db p.text p.user_id p.metadata =
      ingestFull env cos conc s db (normalizeInsightText p.text) p.user_id p.metadata := by
    unfold ingestIdea
    rw [if_neg hlen, dupCandidate_of_no_match db _ p.metadata hdup]
  have hfull := ingestFull_conflict env cos conc s db (normalizeInsightText p.text)
    p.user_id p.metadata (Or.inl hconc)
  refine ⟨hing ▸ hfull.1, ?_, ?_⟩
  · unfold createIdea
    rw [hing, hfull.1]
  · unfold createIdea
    rw [hing, hfull.1]

/-- C3 witness: the amended theorem applied at the concrete racing input. -/
theorem C3_conflict_propagates_witness :
    (ingestIdea exOracle dotQ ["remote work increases productivity"] defaultSettings exDbEmpty
      "Remote work increases productivity" none []).result =
        Except.error IngestErr.conflict ∧
    (createIdea exOracle dotQ ["remote work increases productivity"] defaultSettings exDbEmpty
      ⟨"Remote work increases productivity", none, []⟩).status = 500 ∧
    (createIdea exOracle dotQ ["remote work increases productivity"] defaultSettings exDbEmpty
      ⟨"Remote work increases productivity", none, []⟩).db = exDbEmpty :=
  C3_conflict_propagates exOracle dotQ ["remote work increases productivity"] defaultSettings
    exDbEmpty ⟨"Remote work increases productivity", none, []⟩ (by decide) (by decide)
    (by decide)

/-- Shared helper: `find?` returns the unique satisfying element. -/
theorem find?_eq_of_unique {α : Type} (p : α → Bool) (l : List α) (a : α)
    (ha : a ∈ l) (hpa : p a = true) (huniq : ∀ x ∈ l, p x = true → x = a) :
    l.find? p = some a := by
  induction l with
  | nil => cases ha
  | cons b l ih =>
    by_cases hb : p b = true
    · rw [List.find?_cons_of_pos _ hb]
      rw [huniq b (List.mem_cons_self b l) hb]
    · rw [List.find?_cons_of_neg _ hb]
      rcases List.mem_cons.mp ha with rfl | ha'
      · exact absurd hpa hb
      · exact ih ha' (fun x hx hpx => huniq x (List.mem_cons_of_mem b hx) hpx)

/-- Shared helper: `find?` over an append. -/
theorem find?_append_eq {α : Type} (p : α → Bool) (l₁ l₂ : List α) :
    (l₁ ++ l₂).find? p =
      match l₁.find? p with
      | some x => some x
      | none => l₂.find? p := by
  induction l₁ with
  | nil => rfl
  | cons a l ih =>
    by_cases h : p a = true
    · rw [List.cons_append, List.find?_cons_of_pos _ h, List.find?_cons_of_pos _ h]
    · rw [List.cons_append, List.find?_cons_of_neg _ h, List.find?_cons_of_neg _ h, ih]

/-- Shared helper: the Python `dict(base).update(incoming)` merge — lookups give
incoming keys precedence and fall back to the base dict. -/
theorem metaLookup_dictUpdate (base inc : Meta) (k : String) :
    metaLookup (dictUpdate base inc) k =
      match metaLookup inc k with
      | some v => some v
      | none => metaLookup base k := by
  unfold metaLookup dictUpdate
  rw [find?_append_eq]
  cases hinc : inc.find? (fun kv => kv.1 = k) with
  | some kv =>
    have hfiltered : (base.filter
        (fun kv => ¬ inc.any (fun kv2 => kv2.1 = kv.1))).find? (fun kv => kv.1 = k) = none := by
      rw [List.find?_eq_none]
      intro x hx hpx
      obtain ⟨hxb, hq⟩ := List.mem_filter.mp hx
      have hxk : x.1 = k := by simpa using hpx
      have hany : inc.any (fun kv2 => kv2.1 = x.1) = true := by
        rcases List.find?_some hinc with hkv
        have hkvmem := List.mem_of_find?_eq_some hinc
        have hkvk : kv.1 = k := by simpa using hkv
        rw [List.any_eq_true]
        exact ⟨kv, hkvmem, by simp [hkvk, hxk]⟩
      simp [hany] at hq
    rw [hfiltered]
    rfl
  | none =>
    have hsub : (base.filter
        (fun kv => ¬ inc.any (fun kv2 => kv2.1 = kv.1))).find? (fun kv => kv.1 = k) =
        base.find? (fun kv => kv.1 = k) := by
      induction base with
      | nil => rfl
      | cons b bs ihb =>
        by_cases hbk : (b.1 = k)
        · have hbq : ¬ inc.any (fun kv2 => kv2.1 = b.1) = true := by
            rw [List.any_eq_true]
            rintro ⟨kv2, hkv2, hkv2b⟩
            have : kv2.1 = k := by
              have : kv2.1 = b.1 := by simpa using hkv2b
              rw [this, hbk]
            have hnone := List.find?_eq_none.mp hinc kv2 hkv2
            simp [this] at hnone
          rw [List.filter_cons_of_pos (by simp only [decide_eq_true_eq]; exact hbq),
            List.find?_cons_of_pos _ (by simpa using hbk),
            List.find?_cons_of_pos _ (by simpa using hbk)]
        · by_cases hbq : inc.any (fun kv2 => kv2.1 = b.1) = true
          · rw [List.filter_cons_of_neg
                (by simp only [decide_eq_true_eq]; exact fun hc => hc hbq),
              List.find?_cons_of_neg _ (by simpa using hbk), ihb]
          · rw [List.filter_cons_of_pos (by simp only [decide_eq_true_eq]; exact hbq),
              List.find?_cons_of_neg _ (by simpa using hbk),
              List.find?_cons_of_neg _ (by simpa using hbk), ihb]
    rw [hsub]
    cases base.find? (fun kv => kv.1 = k) <;> rfl

/-- C6: re-ingesting a text whose duplicate key matches a stored idea with a
full hierarchy returns that idea (same id) with incoming metadata merged
(incoming keys overwrite), makes no embedding or oracle call, and leaves every
topic — centroids and `n_points` — unchanged; hence across the first and
second call each matched topic's count grows only by the first call's single
sample. -/
theorem C6_duplicate_idempotent (env : Oracle) (cos : Vec → Vec → ℚ) (conc : List String)
    (s : Settings) (db : Db) (t2 : String) (u : Option ℕ) (m2 : Meta) (i1 : Insight)
    (l1 l3 : Topic)
    (hlen : ¬ (charLen (normalizeInsightText t2) < 5 ∨
      320 < charLen (normalizeInsightText t2)))
    (hmem : i1 ∈ db.insights)
    (hkey : sqlTextKey i1.text = insightTextKey (normalizeInsightText t2))
    (huniq : ∀ j ∈ db.insights,
      sqlTextKey j.text = insightTextKey (normalizeInsightText t2) → j = i1)
    (htid : i1.topic_id = some l1.id)
    (hl1 : findTopic db.topics l1.id = some l1)
    (hsid : i1.subtopic_id = some l3.id)
    (hl3 : findTopic db.topics l3.id = some l3) :
    (ingestIdea env cos conc s db t2 u m2).result =
      .ok ({ i1 with metadata :=
               if m2.isEmpty then i1.metadata else dictUpdate i1.metadata m2 }, l1, l3) ∧
    (ingestIdea env cos conc s db t2 u m2).oracleCalls = 0 ∧
    (ingestIdea env cos conc s db t2 u m2).db.topics = db.topics ∧
    (∀ k, metaLookup (if m2.isEmpty then i1.metadata else dictUpdate i1.metadata m2) k =
      match metaLookup m2 k with
      | some v => some v
      | none => metaLookup i1.metadata k) := by
  have hfind : db.insights.find?
      (fun i => sqlTextKey i.text = insightTextKey (normalizeInsightText t2)) = some i1 :=
    find?_eq_of_unique _ _ i1 hmem (by simpa using hkey)
      (fun x hx hpx => huniq x hx (by simpa using hpx))
  have hing : ingestIdea env cos conc s db t2 u m2 =
      ⟨.ok ({ i1 with metadata :=
                if m2.isEmpty then i1.metadata else dictUpdate i1.metadata m2 }, l1, l3),
       { db with insights :=
          if m2.isEmpty then db.insights
          else db.insights.map (fun j => if j.id = i1.id then
            { i1 with metadata :=
                if m2.isEmpty then i1.metadata else dictUpdate i1.metadata m2 }
            else j) },
       0⟩ := by
    unfold ingestIdea
    rw [if_neg hlen]
    simp only [dupCandidate, hfind, htid, hsid, hl1, hl3]
  refine ⟨by rw [hing], by rw [hing], by rw [hing], ?_⟩
  intro k
  by_cases hm : m2.isEmpty = true
  · rw [if_pos hm]
    rcases List.isEmpty_iff.mp hm with rfl
    rfl
  · rw [if_neg hm]
    exact metaLookup_dictUpdate i1.metadata m2 k

/-- C6 witness: re-ingesting `"Remote  work increases PRODUCTIVITY!"` over the
stored `"Remote work increases productivity."` (same duplicate key) returns the
stored idea with the `stance_hint` metadata merged in, zero oracle calls, and
unchanged topics. -/
theorem C6_duplicate_idempotent_witness :
    (ingestIdea exOracle dotQ [] defaultSettings exDbC6 "Remote  work increases PRODUCTIVITY!"
      none [("stance_hint", MVal.str "pro")]).result =
      .ok ({ exIdeaDup with metadata :=
               if ([("stance_hint", MVal.str "pro")] : Meta).isEmpty then exIdeaDup.metadata
               else dictUpdate exIdeaDup.metadata [("stance_hint", MVal.str "pro")] },
           exTopicL1, exTopicL3) ∧
    (ingestIdea exOracle dotQ [] defaultSettings exDbC6 "Remote  work increases PRODUCTIVITY!"
      none [("stance_hint", MVal.str "pro")]).oracleCalls = 0 ∧
    (ingestIdea exOracle dotQ [] defaultSettings exDbC6 "Remote  work increases PRODUCTIVITY!"
      none [("stance_hint", MVal.str "pro")]).db.topics = exDbC6.topics ∧
    metaLookup (if ([("stance_hint", MVal.str "pro")] : Meta).isEmpty then exIdeaDup.metadata
        else dictUpdate exIdeaDup.metadata [("stance_hint", MVal.str "pro")]) "stance_hint" =
      match metaLookup [("stance_hint", MVal.str "pro")] "stance_hint" with
      | some v => some v
      | none => metaLookup exIdeaDup.metadata "stance_hint" := by
  have h := C6_duplicate_idempotent exOracle dotQ [] defaultSettings exDbC6
    "Remote  work increases PRODUCTIVITY!" none [("stance_hint", MVal.str "pro")]
    exIdeaDup exTopicL1 exTopicL3
    (by decide) (by decide) (by decide) (by decide) (by decide) (by decide) (by decide)
    (by decide)
  exact ⟨h.1, h.2.1, h.2.2.1, h.2.2.2 "stance_hint"⟩

/-! ## Helper lemmas: sorting and merging -/

theorem insertRowDesc_perm (r : Row) (l : List Row) : List.Perm (insertRowDesc r l) (r :: l) := by
  induction l with
  | nil => exact List.Perm.refl _
  | cons y ys ih =>
    unfold insertRowDesc
    by_cases h : r.similarity < y.similarity
    · rw [if_pos h]
      exact ((ih.cons y).trans (List.Perm.swap r y ys))
    · rw [if_neg h]

theorem sortRowsDesc_perm (l : List Row) : List.Perm (sortRowsDesc l) l := by
  induction l with
  | nil => exact List.Perm.refl _
  | cons r rs ih => exact (insertRowDesc_perm r (sortRowsDesc rs)).trans (ih.cons r)

theorem insertRowAsc_perm (r : Row) (l : List Row) : List.Perm (insertRowAsc r l) (r :: l) := by
  induction l with
  | nil => exact List.Perm.refl _
  | cons y ys ih =>
    unfold insertRowAsc
    by_cases h : y.similarity < r.similarity
    · rw [if_pos h]
      exact ((ih.cons y).trans (List.Perm.swap r y ys))
    · rw [if_neg h]

theorem sortRowsAsc_perm (l : List Row) : List.Perm (sortRowsAsc l) l := by
  induction l with
  | nil => exact List.Perm.refl _
  | cons r rs ih => exact (insertRowAsc_perm r (sortRowsAsc rs)).trans (ih.cons r)

theorem mem_of_mem_sortRowsDesc {x : Row} {l : List Row} (h : x ∈ sortRowsDesc l) : x ∈ l :=
  (sortRowsDesc_perm l).mem_iff.mp h

theorem mem_of_mem_sortRowsAsc {x : Row} {l : List Row} (h : x ∈ sortRowsAsc l) : x ∈ l :=
  (sortRowsAsc_perm l).mem_iff.mp h

/-- Rows produced by the shared query core satisfy the filter predicate. -/
theorem topRows_mem {cos : Vec → Vec → ℚ} {db : Db} {e : Vec} {pred : Insight → Bool}
    {limit : ℕ} {r : Row} (h : r ∈ topRows cos db e pred limit) :
    r.idea ∈ db.insights ∧ pred r.idea = true := by
  have h1 : r ∈ sortRowsDesc (rowsOf cos e (db.insights.filter pred)) :=
    List.mem_of_mem_take h
  have h2 : r ∈ rowsOf cos e (db.insights.filter pred) := mem_of_mem_sortRowsDesc h1
  obtain ⟨i, hi, rfl⟩ := List.mem_map.mp h2
  obtain ⟨hmem, hpred⟩ := List.mem_filter.mp hi
  exact ⟨hmem, hpred⟩

/-- Anything the dedupe fold emits came from the accumulator or the scope. -/
theorem mem_dedupeStep_foldl (scope : List Row) :
    ∀ (merged : List Row) (seen : List ℕ) (x : Row),
      x ∈ (scope.foldl dedupeStep (merged, seen)).1 → x ∈ merged ∨ x ∈ scope := by
  induction scope with
  | nil => intro merged seen x hx; exact Or.inl hx
  | cons a rest ih =>
    intro merged seen x hx
    rw [List.foldl_cons] at hx
    unfold dedupeStep at hx
    by_cases h : a.idea.id ∈ seen
    · rw [if_pos h] at hx
      rcases ih merged seen x hx with hm | hr
      · exact Or.inl hm
      · exact Or.inr (List.mem_cons_of_mem a hr)
    · rw [if_neg h] at hx
      rcases ih (merged ++ [a]) (seen ++ [a.idea.id]) x hx with hm | hr
      · rcases List.mem_append.mp hm with hm' | ha
        · exact Or.inl hm'
        · exact Or.inr (List.mem_cons.mpr (Or.inl (List.mem_singleton.mp ha)))
      · exact Or.inr (List.mem_cons_of_mem a hr)

/-- Anything the hierarchical merge emits came from the accumulator or a scope. -/
theorem mem_mergeHierAux (top_k : ℕ) (scopes : List (List Row)) :
    ∀ (merged : List Row) (seen : List ℕ) (x : Row),
      x ∈ mergeHierAux top_k scopes merged seen →
      x ∈ merged ∨ ∃ sc ∈ scopes, x ∈ sc := by
  induction scopes with
  | nil =>
    intro merged seen x hx
    exact Or.inl (List.mem_of_mem_take hx)
  | cons scope rest ih =>
    intro merged seen x hx
    unfold mergeHierAux at hx
    by_cases h : top_k ≤ (sortRowsDesc (scope.foldl dedupeStep (merged, seen)).1).length
    · rw [if_pos h] at hx
      have hx2 := mem_of_mem_sortRowsDesc (List.mem_of_mem_take hx)
      rcases mem_dedupeStep_foldl scope merged seen x hx2 with hm | hs
      · exact Or.inl hm
      · exact Or.inr ⟨scope, List.mem_cons_self _ _, hs⟩
    · rw [if_neg h] at hx
      rcases ih _ _ x hx with hm | ⟨sc, hsc, hxsc⟩
      · rcases mem_dedupeStep_foldl scope merged seen x (mem_of_mem_sortRowsDesc hm) with
          hm' | hs
        · exact Or.inl hm'
        · exact Or.inr ⟨scope, List.mem_cons_self _ _, hs⟩
      · exact Or.inr ⟨sc, List.mem_cons_of_mem _ hsc, hxsc⟩

theorem mem_mergeCandidatesHierarchical {scopes : List (List Row)} {excludeIds : List ℕ}
    {top_k : ℕ} {x : Row} (h : x ∈ mergeCandidatesHierarchical scopes excludeIds top_k) :
    ∃ sc ∈ scopes, x ∈ sc := by
  rcases mem_mergeHierAux top_k scopes [] excludeIds x h with hm | hs
  · cases hm
  · exact hs

/-- Anything `_dedupe_and_trim` keeps came from its input (or the accumulator). -/
theorem mem_dedupeTrimAux (top_k : ℕ) (rows : List Row) :
    ∀ (seen : List String) (out : List Row) (x : Row),
      x ∈ dedupeTrimAux top_k rows seen out → x ∈ out ∨ x ∈ rows := by
  induction rows with
  | nil => intro seen out x hx; exact Or.inl hx
  | cons r rs ih =>
    intro seen out x hx
    unfold dedupeTrimAux at hx
    by_cases h : insightTextKey r.idea.text = "" ∨ insightTextKey r.idea.text ∈ seen
    · rw [if_pos h] at hx
      rcases ih seen out x hx with ho | hr
      · exact Or.inl ho
      · exact Or.inr (List.mem_cons_of_mem r hr)
    · rw [if_neg h] at hx
      by_cases h2 : top_k ≤ (out ++ [r]).length
      · rw [if_pos h2] at hx
        rcases List.mem_append.mp hx with ho | hr
        · exact Or.inl ho
        · exact Or.inr (List.mem_cons.mpr (Or.inl (List.mem_singleton.mp hr)))
      · rw [if_neg h2] at hx
        rcases ih _ _ x hx with ho | hr
        · rcases List.mem_append.mp ho with ho' | hr'
          · exact Or.inl ho'
          · exact Or.inr (List.mem_cons.mpr (Or.inl (List.mem_singleton.mp hr')))
        · exact Or.inr (List.mem_cons_of_mem r hr)

theorem mem_dedupeAndTrim {rows : List Row} {top_k : ℕ} {x : Row}
    (h : x ∈ dedupeAndTrim rows top_k) : x ∈ rows := by
  rcases mem_dedupeTrimAux top_k rows [] [] x h with ho | hr
  · cases ho
  · exact hr

/-- Shared helper: a nonempty scoped query with a positive limit returns rows. -/
theorem topRows_ne_nil {cos : Vec → Vec → ℚ} {db : Db} {e : Vec} {pred : Insight → Bool}
    {limit : ℕ} (i : Insight) (hi : i ∈ db.insights) (hp : pred i = true)
    (hl : 1 ≤ limit) : topRows cos db e pred limit ≠ [] := by
  intro hnil
  unfold topRows at hnil
  have hmemf : i ∈ db.insights.filter pred := List.mem_filter.mpr ⟨hi, hp⟩
  have hlen : 0 < (sortRowsDesc (rowsOf cos e (db.insights.filter pred))).length := by
    rw [(sortRowsDesc_perm _).length_eq]
    unfold rowsOf
    rw [List.length_map]
    exact List.length_pos.mpr (List.ne_nil_of_mem hmemf)
  rcases List.take_eq_nil_iff.mp hnil with h0 | h0
  · omega
  · rw [h0] at hlen
    exact absurd hlen (by simp)

/-- C4 counterexample: with an empty relation cache and a pairwise-relation
oracle that fails (timeout / transport error), relation-bucket retrieval does
not degrade the pair to neutral and does not return a result: the error
propagates and `GET /relations` answers HTTP 500 with nothing committed. -/
theorem C4_relation_failure_counterexample :
    retrieveRelationBuckets exOracleDown dotQ exDbC4 1 2 24 = Except.error () ∧
    (relationsEndpoint exOracleDown dotQ exDbC4 1 2 24).status = 500 ∧
    (relationsEndpoint exOracleDown dotQ exDbC4 1 2 24).db = exDbC4 := by
  refine ⟨?_, ?_, ?_⟩ <;> with_unfolding_all rfl

/-- C4 (amended): a cached pair is answered from the cache with no write; an
uncached pair whose oracle call fails propagates the failure out of
`_get_or_create_relation` — no `IdeaRelation` row is written, the retrieval
raises, and `GET /relations` answers 500 without committing anything.  Only a
reply that arrives but lacks the expected keys degrades to `("neutral", 0)`
(and that path does write a cache row). -/
theorem C4_relation_oracle_failure :
    (∀ (env : Oracle) (db : Db) (seed : Insight) (cid : ℕ) (ctext : String)
       (cached : IdeaRelation), getCachedRelation db seed.id cid = some cached →
       getOrCreateRelation env db seed cid ctext =
         .ok ((cached.relation_label, cached.confidence), db)) ∧
    (∀ (env : Oracle) (db : Db) (seed : Insight) (cid : ℕ) (ctext : String),
       getCachedRelation db seed.id cid = none →
       env.relate seed.text ctext = .error () →
       getOrCreateRelation env db seed cid ctext = .error ()) ∧
    (classifyPairRelation (Except.ok ⟨none, none⟩) = .ok ("neutral", 0)) ∧
    (∀ (env : Oracle) (cos : Vec → Vec → ℚ) (db : Db) (ideaId top_k pool : ℕ)
       (seed : Insight) (tp : ℕ) (cand : Insight),
       findInsight db ideaId = some seed → seed.topic_id = some tp →
       db.relations = [] → (∀ a b, env.relate a b = .error ()) →
       cand ∈ db.insights → ¬ cand.id = seed.id → cand.topic_id = some tp →
       1 ≤ pool →
       retrieveRelationBuckets env cos db ideaId top_k pool = Except.error () ∧
       (relationsEndpoint env cos db ideaId top_k pool).status = 500 ∧
       (relationsEndpoint env cos db ideaId top_k pool).db = db) := by
  have hb : ∀ (env : Oracle) (db : Db) (seed : Insight) (cid : ℕ) (ctext : String),
      getCachedRelation db seed.id cid = none →
      env.relate seed.text ctext = .error () →
      getOrCreateRelation env db seed cid ctext = .error () := by
    intro env db seed cid ctext hc hrel
    unfold getOrCreateRelation
    rw [hc]
    have hcl : classifyPairRelation (env.relate seed.text ctext) = .error () := by
      rw [hrel]
      rfl
    rw [hcl]
  refine ⟨?_, hb, rfl, ?_⟩
  · intro env db seed cid ctext cached hc
    unfold getOrCreateRelation
    rw [hc]
  · intro env cos db ideaId top_k pool seed tp cand hfind htp hrels hrel hcand hne hctp hpool
    have hnonempty : nearestIdeasWithFilters cos db seed.embedding seed.id
        (max (top_k * 6) pool) [tp] none none ≠ [] := by
      unfold nearestIdeasWithFilters
      refine topRows_ne_nil cand hcand ?_ (le_trans hpool (le_max_right _ _))
      simp [hne, hctp]
    cases hc : nearestIdeasWithFilters cos db seed.embedding seed.id
        (max (top_k * 6) pool) [tp] none none with
    | nil => exact absurd hc hnonempty
    | cons c0 rest =>
      have hc0mem : c0 ∈ nearestIdeasWithFilters cos db seed.embedding seed.id
          (max (top_k * 6) pool) [tp] none none := by
        rw [hc]
        exact List.mem_cons_self _ _
      unfold nearestIdeasWithFilters at hc0mem
      have hp0 := (topRows_mem hc0mem).2
      simp only [Bool.and_eq_true, decide_eq_true_eq, List.any_eq_true,
        List.isEmpty_cons, Bool.false_or, List.mem_singleton] at hp0
      have hc0tid : c0.idea.topic_id = some tp := by
        rcases hp0 with ⟨⟨⟨_, ⟨tid, htid, htid2⟩⟩, _⟩, _⟩
        rw [htid2, htid]
      have hin : c0.idea.topic_id = seed.topic_id := by rw [hc0tid, htp]
      have hcache : getCachedRelation db seed.id c0.idea.id = none := by
        unfold getCachedRelation
        rw [hrels]
        rfl
      have hloop : relLoop env seed (c0 :: rest) db [] [] [] = .error () := by
        unfold relLoop
        rw [if_neg (fun hni => hni hin),
          hb env db seed c0.idea.id c0.idea.text hcache (hrel seed.text c0.idea.text)]
      have hbuckets : retrieveRelationBuckets env cos db ideaId top_k pool =
          Except.error () := by
        unfold retrieveRelationBuckets
        rw [hfind]
        simp only [htp]
        rw [hc, hloop]
      refine ⟨hbuckets, ?_, ?_⟩ <;>
        · unfold relationsEndpoint
          rw [hbuckets]

/-- C4 witness: the amended theorem applied at the concrete fixtures — a cached
hit answered without a write, an uncached pair propagating the oracle failure,
and the endpoint answering 500 with the session unchanged. -/
theorem C4_relation_oracle_failure_witness :
    getOrCreateRelation exOracleDown exDbC4Cached exSeedRel 2 "dogs are great pets." =
      .ok ((exRelCached.relation_label, exRelCached.confidence), exDbC4Cached) ∧
    getOrCreateRelation exOracleDown exDbC4 exSeedRel 2 "dogs are great pets." =
      .error () ∧
    retrieveRelationBuckets exOracleDown dotQ exDbC4 1 2 24 = Except.error () ∧
    (relationsEndpoint exOracleDown dotQ exDbC4 1 2 24).status = 500 ∧
    (relationsEndpoint exOracleDown dotQ exDbC4 1 2 24).db = exDbC4 := by
  have hd := C4_relation_oracle_failure.2.2.2 exOracleDown dotQ exDbC4 1 2 24 exSeedRel 10
    exCandRel (by decide) (by decide) rfl (fun a b => rfl) (by decide) (by decide) (by decide)
    (by decide)
  refine ⟨?_, ?_, hd.1, hd.2.1, hd.2.2⟩
  · exact C4_relation_oracle_failure.1 exOracleDown exDbC4Cached exSeedRel 2
      "dogs are great pets." exRelCached (by with_unfolding_all decide)
  · exact C4_relation_oracle_failure.2.1 exOracleDown exDbC4 exSeedRel 2
      "dogs are great pets." rfl rfl

/-- Shared helper: rows of the same-subtree query carry the subtree anchor and
the requested stance. -/
theorem mem_sameSubtree_spec {cos : Vec → Vec → ℚ} {db : Db} {e : Vec} {sid ex lim : ℕ}
    {st : String} {r : Row}
    (h : r ∈ nearestIdeasSameSubtree cos db e sid ex lim (some st)) :
    r.idea.subtopic_id = some sid ∧ ¬ r.idea.id = ex ∧ r.idea.stance_label = st := by
  unfold nearestIdeasSameSubtree at h
  have hp := (topRows_mem h).2
  simp only [Bool.and_eq_true, decide_eq_true_eq] at hp
  exact ⟨hp.1.1, hp.1.2, hp.2⟩

/-- Shared helper: rows of the sibling-subtopics query carry the requested
stance. -/
theorem mem_sameLevel2_stance {cos : Vec → Vec → ℚ} {db : Db} {e : Vec} {pid ex lim : ℕ}
    {st : String} {r : Row}
    (h : r ∈ nearestIdeasSameLevel2 cos db e pid ex lim (some st)) :
    r.idea.stance_label = st := by
  unfold nearestIdeasSameLevel2 at h
  have hp := (topRows_mem h).2
  simp only [Bool.and_eq_true, decide_eq_true_eq] at hp
  exact hp.2

/-- Shared helper: rows of the same-level-1 query carry the requested stance. -/
theorem mem_sameLevel1_stance {cos : Vec → Vec → ℚ} {db : Db} {e : Vec} {tid ex lim : ℕ}
    {st : String} {r : Row}
    (h : r ∈ nearestIdeasSameLevel1 cos db e tid ex lim (some st)) :
    r.idea.stance_label = st := by
  unfold nearestIdeasSameLevel1 at h
  have hp := (topRows_mem h).2
  simp only [Bool.and_eq_true, decide_eq_true_eq] at hp
  exact hp.2

/-- Shared helper: every row of every hierarchical scope carries the requested
stance filter. -/
theorem stance_of_mem_hierScopes {cos : Vec → Vec → ℚ} {db : Db} {seed : Insight}
    {tid : ℕ} {stf : String} {lim : ℕ} {sc : List Row} {r : Row}
    (hsc : sc ∈ hierScopes cos db seed tid stf lim) (hr : r ∈ sc) :
    r.idea.stance_label = stf := by
  unfold hierScopes at hsc
  rcases List.mem_append.mp hsc with h12 | h3
  · rcases List.mem_append.mp h12 with h1 | h2
    · cases hsid : seed.subtopic_id with
      | none => rw [hsid] at h1; cases h1
      | some sid =>
        rw [hsid] at h1
        rcases List.mem_singleton.mp h1 with rfl
        exact (mem_sameSubtree_spec hr).2.2
    · cases hsub : (match seed.subtopic_id with
          | some sid => findTopic db.topics sid
          | none => none) with
      | none => rw [hsub] at h2; cases h2
      | some stp =>
        rw [hsub] at h2
        dsimp only at h2
        cases hpid : stp.parent_topic_id with
        | none => rw [hpid] at h2; cases h2
        | some pid =>
          rw [hpid] at h2
          rcases List.mem_singleton.mp h2 with rfl
          exact mem_sameLevel2_stance hr
  · rcases List.mem_singleton.mp h3 with rfl
    exact mem_sameLevel1_stance hr

/-- C1 counterexample: for the stored neutral idea with a pro neighbor in its
subtree, opposing retrieval returns a nonempty list, not the empty list the
claim requires. -/
theorem C1_neutral_opposing_counterexample :
    (findInsight exDbC1 1).map (fun i => i.stance_label) = some "neutral" ∧
    retrieveOpposing dotQ defaultSettings exDbC1 1 5 none ≠ [] := by
  constructor <;> with_unfolding_all decide

/-- C1 (amended): opposing retrieval computes the opposite stance as
`"con" if seed.stance == "pro" else "pro"`, so a neutral seed is treated like a
con seed: every returned row has `stance_label = "pro"` — the result is empty
only when no pro candidate is in scope, not because neutral has no opposite. -/
theorem C1_neutral_opposing_returns_pro (cos : Vec → Vec → ℚ) (s : Settings) (db : Db)
    (ideaId top_k : ℕ) (alpha : Option ℚ) (seed : Insight)
    (hfind : findInsight db ideaId = some seed)
    (hneu : seed.stance_label = "neutral") :
    ∀ r ∈ retrieveOpposing cos s db ideaId top_k alpha, r.idea.stance_label = "pro" := by
  intro r hr
  unfold retrieveOpposing at hr
  rw [hfind] at hr
  dsimp only at hr
  cases htp : seed.topic_id with
  | none => rw [htp] at hr; exact absurd hr (List.not_mem_nil r)
  | some tid =>
    rw [htp] at hr
    dsimp only at hr
    have hopp : (if seed.stance_label = "pro" then "con" else "pro") = "pro" := by
      rw [hneu]
      decide
    rw [hopp] at hr
    have hr1 := mem_dedupeAndTrim hr
    have hr2 : ∃ r0, r0 ∈ mergeCandidatesHierarchical
        (hierScopes cos db seed tid "pro" (max (top_k * 4) 24)) [seed.id] top_k ∧
        r.idea = r0.idea := by
      cases hoc : opposingCentroid db seed "pro" with
      | none =>
        rw [hoc] at hr1
        exact ⟨r, mem_of_mem_sortRowsAsc hr1, rfl⟩
      | some oc =>
        rw [hoc] at hr1
        have hr1' := mem_of_mem_sortRowsDesc hr1
        obtain ⟨r0, hr0, hmap⟩ := List.mem_map.mp hr1'
        refine ⟨r0, hr0, ?_⟩
        by_cases hemb : r0.idea.embedding = []
        · rw [← hmap]; simp [hemb]
        · rw [← hmap]; simp [hemb]
    obtain ⟨r0, hr0, hidea⟩ := hr2
    obtain ⟨sc, hsc, hrsc⟩ := mem_mergeCandidatesHierarchical hr0
    rw [hidea]
    exact stance_of_mem_hierScopes hsc hrsc

/-- C1 witness: the amended theorem applied to the concrete neutral seed and
its returned pro row. -/
theorem C1_neutral_opposing_witness : (⟨exProIdea, 1⟩ : Row).idea.stance_label = "pro" :=
  C1_neutral_opposing_returns_pro dotQ defaultSettings exDbC1 1 5 none exSeedNeutral
    (by with_unfolding_all decide) (by decide) ⟨exProIdea, 1⟩
    (by with_unfolding_all decide)

/-- Shared helper: when the incoming rows have pairwise-distinct ids, none of
which was seen, the dedupe fold appends them all. -/
theorem dedupeStep_foldl_all (rows : List Row) :
    ∀ (merged : List Row) (seen : List ℕ),
      ((rows.map (fun r => r.idea.id)).Nodup) → (∀ x ∈ rows, x.idea.id ∉ seen) →
      (rows.foldl dedupeStep (merged, seen)).1 = merged ++ rows := by
  induction rows with
  | nil => intro merged seen _ _; simp
  | cons a rest ih =>
    intro merged seen hnd hdisj
    rw [List.foldl_cons]
    have hstep : dedupeStep (merged, seen) a = (merged ++ [a], seen ++ [a.idea.id]) := by
      unfold dedupeStep
      rw [if_neg (hdisj a (List.mem_cons_self a rest))]
    rw [hstep]
    have hnd' : ((rest.map (fun r => r.idea.id)).Nodup) := by
      rw [List.map_cons] at hnd
      exact (List.nodup_cons.mp hnd).2
    have hnotin : a.idea.id ∉ rest.map (fun r => r.idea.id) := by
      rw [List.map_cons] at hnd
      exact (List.nodup_cons.mp hnd).1
    have hdisj' : ∀ x ∈ rest, x.idea.id ∉ seen ++ [a.idea.id] := by
      intro x hx hmem
      rcases List.mem_append.mp hmem with hs | hone
      · exact hdisj x (List.mem_cons_of_mem a hx) hs
      · have hxa : x.idea.id = a.idea.id := List.mem_singleton.mp hone
        exact hnotin (hxa ▸ List.mem_map_of_mem (fun r => r.idea.id) hx)
    rw [ih (merged ++ [a]) (seen ++ [a.idea.id]) hnd' hdisj']
    simp

/-- Shared helper: when the deduped first scope already holds at least `top_k`
rows, the hierarchical merge returns its sorted top `top_k` and never consults
the later scopes. -/
theorem mergeHier_first_scope_full (scope1 : List Row) (rest : List (List Row))
    (exclude : List ℕ) (top_k : ℕ)
    (h : top_k ≤ (scope1.foldl dedupeStep ([], exclude)).1.length) :
    mergeCandidatesHierarchical (scope1 :: rest) exclude top_k =
      (sortRowsDesc (scope1.foldl dedupeStep ([], exclude)).1).take top_k := by
  unfold mergeCandidatesHierarchical mergeHierAux
  dsimp only
  rw [if_pos (by rw [(sortRowsDesc_perm _).length_eq]; exact h)]

/-- Shared helper: query rows inherit pairwise-distinct ids from the table. -/
theorem topRows_ids_nodup {cos : Vec → Vec → ℚ} {db : Db} {e : Vec} {pred : Insight → Bool}
    {lim : ℕ} (hnd : (db.insights.map (fun i => i.id)).Nodup) :
    ((topRows cos db e pred lim).map (fun r => r.idea.id)).Nodup := by
  unfold topRows
  have h1 : ((db.insights.filter pred).map (fun i => i.id)).Nodup :=
    (List.Sublist.map _ (List.filter_sublist _)).nodup hnd
  have h2 : ((rowsOf cos e (db.insights.filter pred)).map (fun r => r.idea.id)).Nodup := by
    unfold rowsOf
    rw [List.map_map]
    exact h1
  have h3 : (((sortRowsDesc (rowsOf cos e (db.insights.filter pred))).map
      (fun r => r.idea.id)).Nodup) :=
    (((sortRowsDesc_perm _).map (fun r => r.idea.id)).nodup_iff).mpr h2
  exact (List.Sublist.map _ (List.take_sublist _ _)).nodup h3

/-- Shared helper: a query returns `min limit count` rows. -/
theorem topRows_length {cos : Vec → Vec → ℚ} {db : Db} {e : Vec} {pred : Insight → Bool}
    {lim : ℕ} :
    (topRows cos db e pred lim).length = min lim (db.insights.filter pred).length := by
  unfold topRows
  rw [List.length_take, (sortRowsDesc_perm _).length_eq]
  unfold rowsOf
  rw [List.length_map]

/-- C7: the hierarchical merge consumes scopes in order L3, L2, L1, dedupes by
id, sorts the accumulated set by similarity descending, and returns as soon as
at least `top_k` rows are accumulated — in particular, when the deduped first
scope already has `top_k` rows the later scopes are never consulted; hence
whenever at least `top_k` distinct same-L3 candidates with the required stance
exist, every row supportive retrieval returns is a same-L3 row (never a
candidate reachable only through the L1 scope). -/
theorem C7_hierarchical_merge_leaves_first :
    (∀ (scope1 : List Row) (rest : List (List Row)) (exclude : List ℕ) (top_k : ℕ),
      top_k ≤ (scope1.foldl dedupeStep ([], exclude)).1.length →
      mergeCandidatesHierarchical (scope1 :: rest) exclude top_k =
        (sortRowsDesc (scope1.foldl dedupeStep ([], exclude)).1).take top_k) ∧
    (∀ (cos : Vec → Vec → ℚ) (db : Db) (ideaId top_k : ℕ) (seed : Insight) (tid l3id : ℕ),
      findInsight db ideaId = some seed →
      seed.topic_id = some tid →
      seed.subtopic_id = some l3id →
      (db.insights.map (fun i => i.id)).Nodup →
      top_k ≤ (db.insights.filter (fun i =>
        i.subtopic_id = some l3id && i.id ≠ seed.id &&
        i.stance_label = seed.stance_label)).length →
      ∀ r ∈ retrieveSupportive cos db ideaId top_k,
        r.idea.subtopic_id = some l3id ∧ r.idea.stance_label = seed.stance_label) := by
  refine ⟨mergeHier_first_scope_full, ?_⟩
  intro cos db ideaId top_k seed tid l3id hfind htid hsid hnd hcount r hr
  unfold retrieveSupportive at hr
  rw [hfind] at hr
  dsimp only at hr
  rw [htid] at hr
  dsimp only at hr
  have hscopes : hierScopes cos db seed tid seed.stance_label (max (top_k * 4) 24) =
      nearestIdeasSameSubtree cos db seed.embedding l3id seed.id (max (top_k * 4) 24)
        (some seed.stance_label) ::
      ((match findTopic db.topics l3id with
        | some st =>
          match st.parent_topic_id with
          | some pid => [nearestIdeasSameLevel2 cos db seed.embedding pid seed.id
              (max (top_k * 4) 24) (some seed.stance_label)]
          | none => []
        | none => []) ++
       [nearestIdeasSameLevel1 cos db seed.embedding tid seed.id (max (top_k * 4) 24)
         (some seed.stance_label)]) := by
    unfold hierScopes
    rw [hsid]
    dsimp only
    rw [List.append_assoc, List.singleton_append]
  rw [hscopes] at hr
  have hq1nd : (((nearestIdeasSameSubtree cos db seed.embedding l3id seed.id
      (max (top_k * 4) 24) (some seed.stance_label)).map (fun x => x.idea.id)).Nodup) := by
    unfold nearestIdeasSameSubtree
    exact topRows_ids_nodup hnd
  have hq1disj : ∀ x ∈ nearestIdeasSameSubtree cos db seed.embedding l3id seed.id
      (max (top_k * 4) 24) (some seed.stance_label), x.idea.id ∉ [seed.id] := by
    intro x hx hmem
    exact (mem_sameSubtree_spec hx).2.1 (List.mem_singleton.mp hmem)
  have hq1len : top_k ≤ (nearestIdeasSameSubtree cos db seed.embedding l3id seed.id
      (max (top_k * 4) 24) (some seed.stance_label)).length := by
    unfold nearestIdeasSameSubtree
    rw [topRows_length]
    refine le_min (le_trans (by omega) (le_max_left (top_k * 4) 24)) ?_
    exact hcount
  have hfold := dedupeStep_foldl_all
    (nearestIdeasSameSubtree cos db seed.embedding l3id seed.id (max (top_k * 4) 24)
      (some seed.stance_label)) [] [seed.id] hq1nd hq1disj
  have hmerge := mergeHier_first_scope_full
    (nearestIdeasSameSubtree cos db seed.embedding l3id seed.id (max (top_k * 4) 24)
      (some seed.stance_label))
    ((match findTopic db.topics l3id with
      | some st =>
        match st.parent_topic_id with
        | some pid => [nearestIdeasSameLevel2 cos db seed.embedding pid seed.id
            (max (top_k * 4) 24) (some seed.stance_label)]
        | none => []
      | none => []) ++
     [nearestIdeasSameLevel1 cos db seed.embedding tid seed.id (max (top_k * 4) 24)
       (some seed.stance_label)])
    [seed.id] top_k (by rw [hfold]; simpa using hq1len)
  rw [hmerge] at hr
  have hr1 := mem_dedupeAndTrim hr
  have hr2 : r ∈ nearestIdeasSameSubtree cos db seed.embedding l3id seed.id
      (max (top_k * 4) 24) (some seed.stance_label) := by
    have hs := mem_of_mem_sortRowsDesc (List.mem_of_mem_take hr1)
    rw [hfold] at hs
    simpa using hs
  exact ⟨(mem_sameSubtree_spec hr2).1, (mem_sameSubtree_spec hr2).2.2⟩

/-- C7 witness: in the fixture with two same-L3 pro candidates and one L1-only
pro candidate, top-2 supportive retrieval returns only same-L3 rows; the merge
mechanics conjunct is applied to a singleton first scope. -/
theorem C7_hierarchical_merge_leaves_first_witness :
    mergeCandidatesHierarchical [[(⟨exCandA, 1⟩ : Row)]] [] 1 =
      (sortRowsDesc ([(⟨exCandA, 1⟩ : Row)].foldl dedupeStep ([], [])).1).take 1 ∧
    ((⟨exCandA, 1⟩ : Row).idea.subtopic_id = some 12 ∧
      (⟨exCandA, 1⟩ : Row).idea.stance_label = exSeedPro.stance_label) := by
  constructor
  · exact C7_hierarchical_merge_leaves_first.1 [⟨exCandA, 1⟩] [] [] 1
      (by with_unfolding_all decide)
  · exact C7_hierarchical_merge_leaves_first.2 dotQ exDbC7 1 2 exSeedPro 10 12
      (by with_unfolding_all decide) (by decide) (by decide)
      (by decide) (by with_unfolding_all decide) ⟨exCandA, 1⟩
      (by with_unfolding_all decide)

/-! ## Helper lemmas: the rebalance job -/

theorem vadd_assoc (a b c : Vec) : vadd (vadd a b) c = vadd a (vadd b c) := by
  induction a generalizing b c with
  | nil => simp [vadd]
  | cons x xs ih =>
    cases b with
    | nil => simp [vadd]
    | cons y ys =>
      cases c with
      | nil => simp [vadd]
      | cons z zs =>
        simp only [vadd, List.zipWith_cons_cons] at ih ⊢
        refine congrArg₂ List.cons (by ring) ?_
        exact ih ys zs

theorem vadd_self (v : Vec) : vadd v v = smulQ 2 v := by
  induction v with
  | nil => rfl
  | cons x xs ih =>
    simp only [vadd, smulQ, List.zipWith_cons_cons, List.map_cons] at ih ⊢
    refine congrArg₂ List.cons (by ring) ?_
    exact ih

theorem foldl_vadd_comm (l : List Vec) : ∀ (a b : Vec),
    l.foldl vadd (vadd a b) = vadd a (l.foldl vadd b) := by
  induction l with
  | nil => intro a b; rfl
  | cons x xs ih =>
    intro a b
    rw [List.foldl_cons, List.foldl_cons, vadd_assoc, ih]

theorem vadd_length (a b : Vec) : (vadd a b).length = min a.length b.length := by
  simp [vadd]

theorem vsum1_length (v : Vec) (vs : List Vec) (h : ∀ x ∈ vs, x.length = v.length) :
    (vsum1 v vs).length = v.length := by
  induction vs generalizing v with
  | nil => rfl
  | cons x xs ih =>
    have hx : x.length = v.length := h x (List.mem_cons_self x xs)
    have hstep : (vadd v x).length = v.length := by
      rw [vadd_length, hx]
      omega
    have ih' := ih (vadd v x) (fun y hy => by
      rw [hstep]
      exact h y (List.mem_cons_of_mem x hy))
    unfold vsum1 at ih' ⊢
    rw [List.foldl_cons, ih', hstep]

/-- `reclusterUpdateChild` acts on centroid and count exactly like
`updateTopicCentroid`; the stance-bucket write does not touch them. -/
theorem reclusterUpdateChild_core (i : Insight) (c : Topic) :
    (reclusterUpdateChild i c).n_points = c.n_points + 1 ∧
    (reclusterUpdateChild i c).centroid_embedding =
      runningMean c.centroid_embedding c.n_points i.embedding := by
  unfold reclusterUpdateChild
  dsimp only
  split
  · exact ⟨rfl, rfl⟩
  · exact ⟨rfl, rfl⟩

/-- Folding `reclusterUpdateChild` matches folding `updateTopicCentroid` over
the embeddings on the centroid/count projections. -/
theorem fold_reclusterUpdateChild_bridge (xs : List Insight) :
    ∀ (t t' : Topic), t.centroid_embedding = t'.centroid_embedding →
      t.n_points = t'.n_points →
      (xs.foldl (fun c i => reclusterUpdateChild i c) t).n_points =
        ((xs.map (fun i => i.embedding)).foldl updateTopicCentroid t').n_points ∧
      (xs.foldl (fun c i => reclusterUpdateChild i c) t).centroid_embedding =
        ((xs.map (fun i => i.embedding)).foldl updateTopicCentroid t').centroid_embedding := by
  induction xs with
  | nil => intro t t' hc hn; exact ⟨hn, hc⟩
  | cons x xs ih =>
    intro t t' hc hn
    rw [List.map_cons, List.foldl_cons, List.foldl_cons]
    refine ih (reclusterUpdateChild x t) (updateTopicCentroid t' x.embedding) ?_ ?_
    · rw [(reclusterUpdateChild_core x t).2, hc, hn]
      rfl
    · rw [(reclusterUpdateChild_core x t).1, hn]
      rfl

theorem updTopicAt_getElem? (l : List Topic) :
    ∀ (i j : ℕ) (f : Topic → Topic),
      (updTopicAt l i f)[j]? = if j = i then (l[j]?).map f else l[j]? := by
  induction l with
  | nil =>
    intro i j f
    unfold updTopicAt
    simp
  | cons c cs ih =>
    intro i j f
    cases i with
    | zero =>
      cases j with
      | zero => simp [updTopicAt]
      | succ j' => simp [updTopicAt]
    | succ i' =>
      cases j with
      | zero => simp [updTopicAt]
      | succ j' =>
        have hl : updTopicAt (c :: cs) (i' + 1) f = c :: updTopicAt cs i' f := rfl
        rw [hl, List.getElem?_cons_succ, List.getElem?_cons_succ, ih i' j' f]
        by_cases h : j' = i'
        · rw [if_pos h, if_pos (by omega)]
        · rw [if_neg h, if_neg (by omega)]

theorem updTopicAt_length (l : List Topic) :
    ∀ (i : ℕ) (f : Topic → Topic), (updTopicAt l i f).length = l.length := by
  induction l with
  | nil => intro i f; rfl
  | cons c cs ih =>
    intro i f
    cases i with
    | zero => rfl
    | succ i' =>
      show (c :: updTopicAt cs i' f).length = _
      simp [ih]

/-- The reassignment loop's effect on the children list. -/
theorem reclusterLoop_children (startId : ℕ) (pairs : List (Insight × ℕ)) :
    ∀ (accIns : List Insight) (children : List Topic),
      (reclusterLoop startId pairs accIns children).2 =
        pairs.foldl (fun cs p => updTopicAt cs p.2 (reclusterUpdateChild p.1)) children := by
  induction pairs with
  | nil => intro accIns children; rfl
  | cons p rest ih =>
    intro accIns children
    obtain ⟨i, l⟩ := p
    show (reclusterLoop startId rest _ _).2 = _
    rw [ih, List.foldl_cons]

/-- Projection of the interleaved per-label updates onto one child index. -/
theorem foldl_updTopicAt_getElem? (pairs : List (Insight × ℕ)) :
    ∀ (children : List Topic) (j : ℕ),
      (pairs.foldl (fun cs p => updTopicAt cs p.2 (reclusterUpdateChild p.1)) children)[j]? =
        (children[j]?).map (fun c =>
          (pairs.filter (fun p => p.2 = j)).foldl
            (fun c p => reclusterUpdateChild p.1 c) c) := by
  induction pairs with
  | nil =>
    intro children j
    rw [List.foldl_nil, List.filter_nil]
    cases children[j]? <;> rfl
  | cons p rest ih =>
    intro children j
    obtain ⟨i, l⟩ := p
    rw [List.foldl_cons, ih]
    by_cases h : l = j
    · subst h
      rw [updTopicAt_getElem?, if_pos rfl, List.filter_cons_of_pos (by simp)]
      cases children[l]? with
      | none => rfl
      | some c => rfl
    · rw [updTopicAt_getElem?, if_neg (fun hj => h hj.symm),
        List.filter_cons_of_neg (by simp [h])]

/-- Locate a row in a list whose `j`-th entry has id `base + j`. -/
theorem find?_of_indexed_ids (l : List Topic) :
    ∀ (base idx : ℕ), idx < l.length →
      (∀ (j : ℕ) (t : Topic), l[j]? = some t → t.id = base + j) →
      l.find? (fun t => t.id = base + idx) = l[idx]? := by
  induction l with
  | nil => intro base idx h _; simp at h
  | cons c cs ih =>
    intro base idx hlt hids
    have hc : c.id = base := by
      have h0 := hids 0 c (by simp)
      simpa using h0
    cases idx with
    | zero =>
      rw [List.find?_cons_of_pos _ (by simp [hc])]
      simp
    | succ j =>
      rw [List.find?_cons_of_neg _ (by simp only [hc, decide_eq_true_eq]; omega)]
      have hcs : cs.find? (fun t => t.id = (base + 1) + j) = cs[j]? := by
        refine ih (base + 1) j (by simpa using hlt) ?_
        intro j' t' ht'
        have hj' := hids (j' + 1) t' (by simpa using ht')
        omega
      simp only [show base + (j + 1) = (base + 1) + j from by omega]
      rw [hcs]
      simp

theorem foldl_updTopicAt_length (pairs : List (Insight × ℕ)) :
    ∀ (children : List Topic),
      (pairs.foldl (fun cs p => updTopicAt cs p.2 (reclusterUpdateChild p.1)) children).length =
        children.length := by
  induction pairs with
  | nil => intro children; rfl
  | cons p rest ih =>
    intro children
    rw [List.foldl_cons, ih, updTopicAt_length]

theorem reclusterUpdateChild_id (i : Insight) (c : Topic) :
    (reclusterUpdateChild i c).id = c.id := by
  unfold reclusterUpdateChild
  dsimp only
  split
  · rfl
  · rfl

theorem foldl_reclusterUpdateChild_id (ps : List (Insight × ℕ)) :
    ∀ (c : Topic), (ps.foldl (fun c p => reclusterUpdateChild p.1 c) c).id = c.id := by
  induction ps with
  | nil => intro c; rfl
  | cons p rest ih =>
    intro c
    rw [List.foldl_cons, ih, reclusterUpdateChild_id]

theorem find?_append_of_forall_neg {α : Type} (p : α → Bool) :
    ∀ (l₁ l₂ : List α), (∀ x ∈ l₁, ¬ p x = true) →
      (l₁ ++ l₂).find? p = l₂.find? p := by
  intro l₁
  induction l₁ with
  | nil => intro l₂ _; rfl
  | cons a l ih =>
    intro l₂ h
    rw [List.cons_append, List.find?_cons_of_neg _ (h a (List.mem_cons_self a l)),
      ih l₂ (fun x hx => h x (List.mem_cons_of_mem a hx))]

/-- C10: after the re-partition body of `run_periodic_recluster` processes a
level-1 parent, the `idx`-th new level-2 child is found at id `nextId + idx`;
when its cluster is nonempty it ends, in exact arithmetic, with centroid equal
to the arithmetic mean of its members' embeddings but with
`n_points = 2 · |members|` (the centroid is initialized to the cluster mean at
`n_points = |members|` and every member is then re-added through the running
mean, which preserves the mean but double-counts the samples); a child created
for an empty cluster ends with `n_points = 0` and centroid equal to the first
member embedding of the parent's idea list. -/
theorem C10_recluster_child_state (db : Db) (parent : Topic) (k : ℕ)
    (kmeans : List Vec → ℕ → List ℕ) (idx : ℕ) (D : ℕ) (ideas : List Insight)
    (labels : List ℕ) (members : List Vec)
    (hideas : ideas = db.insights.filter (fun i => i.topic_id = some parent.id))
    (hlabels : labels = kmeans (ideas.map (fun i => i.embedding)) k)
    (hmembers : members =
      ((ideas.zip labels).filter (fun p => p.2 = idx)).map (fun p => p.1.embedding))
    (hidx : idx < k)
    (hdim : ∀ i ∈ ideas, i.embedding.length = D)
    (hfresh : ∀ t ∈ db.topics, t.id < db.nextId) :
    ∃ child, findTopic (reclusterParent db parent k kmeans).topics (db.nextId + idx) =
        some child ∧
      (members = [] → child.n_points = 0 ∧
        child.centroid_embedding = (ideas.map (fun i => i.embedding)).headD []) ∧
      (∀ v vs, members = v :: vs → child.n_points = 2 * members.length ∧
        child.centroid_embedding =
          smulQ (1 / ((members.length : ℕ) : ℚ)) (vsum1 v vs)) := by
  have hres : (reclusterParent db parent k kmeans).topics =
      (db.topics.map (fun t =>
        if t.level = 2 && t.parent_topic_id = some parent.id then { t with n_points := 0 }
        else t)) ++
      (reclusterLoop db.nextId (ideas.zip labels) []
        ((List.range k).map
          (reclusterChildInit parent.id parent.name db.nextId ideas labels))).2 := by
    rw [hlabels, hideas]
    rfl
  set childInit := reclusterChildInit parent.id parent.name db.nextId ideas labels idx with hCI
  set filterPairs := (ideas.zip labels).filter (fun p => p.2 = idx) with hFP
  set childFinal := filterPairs.foldl (fun c p => reclusterUpdateChild p.1 c) childInit
    with hCF
  have hloopC := reclusterLoop_children db.nextId (ideas.zip labels) []
    ((List.range k).map (reclusterChildInit parent.id parent.name db.nextId ideas labels))
  have hchildlen :
      ((ideas.zip labels).foldl (fun cs p => updTopicAt cs p.2 (reclusterUpdateChild p.1))
        ((List.range k).map
          (reclusterChildInit parent.id parent.name db.nextId ideas labels))).length = k := by
    rw [foldl_updTopicAt_length]
    simp
  have hget := foldl_updTopicAt_getElem? (ideas.zip labels)
    ((List.range k).map (reclusterChildInit parent.id parent.name db.nextId ideas labels)) idx
  have hrange : ((List.range k).map
      (reclusterChildInit parent.id parent.name db.nextId ideas labels))[idx]? =
      some childInit := by
    rw [List.getElem?_map, List.getElem?_range hidx]
    rfl
  have hatIdx :
      ((ideas.zip labels).foldl (fun cs p => updTopicAt cs p.2 (reclusterUpdateChild p.1))
        ((List.range k).map
          (reclusterChildInit parent.id parent.name db.nextId ideas labels)))[idx]? =
      some childFinal := by
    rw [hget, hrange]
    rfl
  have hids : ∀ (j : ℕ) (t : Topic),
      ((ideas.zip labels).foldl (fun cs p => updTopicAt cs p.2 (reclusterUpdateChild p.1))
        ((List.range k).map
          (reclusterChildInit parent.id parent.name db.nextId ideas labels)))[j]? = some t →
      t.id = db.nextId + j := by
    intro j t ht
    rw [foldl_updTopicAt_getElem? (ideas.zip labels) _ j] at ht
    cases hj : ((List.range k).map
        (reclusterChildInit parent.id parent.name db.nextId ideas labels))[j]? with
    | none => rw [hj] at ht; cases ht
    | some cj =>
      rw [hj] at ht
      have hjk : j < k := by
        by_contra hge
        rw [List.getElem?_eq_none (by simpa using Nat.le_of_not_lt hge)] at hj
        cases hj
      have hcj : reclusterChildInit parent.id parent.name db.nextId ideas labels j = cj := by
        rw [List.getElem?_map, List.getElem?_range hjk] at hj
        simpa using hj
      have ht2 : ((ideas.zip labels).filter (fun p => p.2 = j)).foldl
          (fun c p => reclusterUpdateChild p.1 c) cj = t := by
        simpa using ht
      rw [← ht2, foldl_reclusterUpdateChild_id]
      rw [← hcj]
      rfl
  have hzero : ∀ x ∈ db.topics.map (fun t =>
      if t.level = 2 && t.parent_topic_id = some parent.id then { t with n_points := 0 }
      else t), ¬ (x.id = db.nextId + idx) := by
    intro x hx
    obtain ⟨t, htm, rfl⟩ := List.mem_map.mp hx
    have hid : (if t.level = 2 && t.parent_topic_id = some parent.id then
        { t with n_points := 0 } else t).id = t.id := by
      split
      · rfl
      · rfl
    rw [hid]
    have hlt := hfresh t htm
    omega
  have happ := find?_append_of_forall_neg (fun t => decide (t.id = db.nextId + idx))
    (db.topics.map (fun t =>
      if t.level = 2 && t.parent_topic_id = some parent.id then { t with n_points := 0 }
      else t))
    ((ideas.zip labels).foldl (fun cs p => updTopicAt cs p.2 (reclusterUpdateChild p.1))
      ((List.range k).map (reclusterChildInit parent.id parent.name db.nextId ideas labels)))
    (fun x hx => by simpa using hzero x hx)
  have hfoi := find?_of_indexed_ids
    ((ideas.zip labels).foldl (fun cs p => updTopicAt cs p.2 (reclusterUpdateChild p.1))
      ((List.range k).map (reclusterChildInit parent.id parent.name db.nextId ideas labels)))
    db.nextId idx (by rw [hchildlen]; exact hidx) hids
  have hfind : findTopic (reclusterParent db parent k kmeans).topics (db.nextId + idx) =
      some childFinal := by
    unfold findTopic
    rw [hres, hloopC, happ, hfoi]
    exact hatIdx
  refine ⟨childFinal, hfind, ?_, ?_⟩
  · intro hm
    have hfp : filterPairs = [] := List.map_eq_nil_iff.mp (hmembers.symm.trans hm)
    have hm2 : ((ideas.zip labels).filter (fun p => p.2 = idx)).map
        (fun p => p.1.embedding) = [] := by
      rw [← hFP, hfp, List.map_nil]
    have hcf : childFinal = childInit := by
      rw [hCF, hfp]
      rfl
    constructor
    · rw [hcf, hCI]
      show (((ideas.zip labels).filter (fun p => p.2 = idx)).map
        (fun p => p.1.embedding)).length = 0
      simp [hm2]
    · rw [hcf, hCI]
      show (match ((ideas.zip labels).filter (fun p => p.2 = idx)).map
          (fun p => p.1.embedding) with
        | [] => (ideas.map (fun i => i.embedding)).headD []
        | w :: ws => smulQ (1 / ((ws.length + 1 : ℕ) : ℚ)) (vsum1 w ws)) =
        (ideas.map (fun i => i.embedding)).headD []
      rw [hm2]
  · intro v vs hm
    have hfpne : filterPairs.map (fun p => p.1.embedding) = v :: vs :=
      hmembers.symm.trans hm
    have hscr : ((ideas.zip labels).filter (fun p => p.2 = idx)).map
        (fun p => p.1.embedding) = v :: vs := by
      rw [← hFP]
      exact hfpne
    have hnpI : childInit.n_points = vs.length + 1 := by
      rw [hCI]
      show (((ideas.zip labels).filter (fun p => p.2 = idx)).map
        (fun p => p.1.embedding)).length = vs.length + 1
      simp [hscr]
    have hcI : childInit.centroid_embedding =
        smulQ (1 / ((vs.length + 1 : ℕ) : ℚ)) (vsum1 v vs) := by
      rw [hCI]
      show (match ((ideas.zip labels).filter (fun p => p.2 = idx)).map
          (fun p => p.1.embedding) with
        | [] => (ideas.map (fun i => i.embedding)).headD []
        | w :: ws => smulQ (1 / ((ws.length + 1 : ℕ) : ℚ)) (vsum1 w ws)) =
        smulQ (1 / ((vs.length + 1 : ℕ) : ℚ)) (vsum1 v vs)
      rw [hscr]
    have hmemD : ∀ e ∈ members, e.length = D := by
      intro e he
      rw [hmembers] at he
      obtain ⟨p, hp, rfl⟩ := List.mem_map.mp he
      obtain ⟨a, b⟩ := p
      rw [hFP] at hp
      exact hdim a (List.of_mem_zip (List.mem_of_mem_filter hp)).1
    have hvD : v.length = D := hmemD v (by rw [hm]; exact List.mem_cons_self v vs)
    have hvsD : ∀ x ∈ vs, x.length = v.length := by
      intro x hx
      rw [hvD]
      exact hmemD x (by rw [hm]; exact List.mem_cons_of_mem v hx)
    have hcIlen : childInit.centroid_embedding.length = v.length := by
      rw [hcI, smulQ_length, vsum1_length v vs hvsD]
    have hdims : ∀ e ∈ v :: vs, e.length = childInit.centroid_embedding.length := by
      intro e he
      rw [hcIlen]
      rcases List.mem_cons.mp he with rfl | hx
      · rfl
      · exact hvsD e hx
    have hbr := fold_reclusterUpdateChild_bridge (filterPairs.map Prod.fst)
      childInit childInit rfl rfl
    have hxs : (filterPairs.map Prod.fst).map (fun i => i.embedding) = v :: vs := by
      rw [List.map_map]
      exact hfpne
    have hspec := foldl_updateTopicCentroid_spec (v :: vs) childInit hdims
    have hcf2 : childFinal = (filterPairs.map Prod.fst).foldl
        (fun c i => reclusterUpdateChild i c) childInit := by
      rw [hCF, List.foldl_map]
    constructor
    · rw [hcf2, hbr.1, hxs, hspec.1, hnpI, hm]
      simp only [List.length_cons]
      omega
    · have hmQ : ((vs.length + 1 : ℕ) : ℚ) ≠ 0 :=
        Nat.cast_ne_zero.mpr (Nat.succ_ne_zero vs.length)
      have hbase : smulQ ((childInit.n_points : ℕ) : ℚ) childInit.centroid_embedding =
          vsum1 v vs := by
        rw [hnpI, hcI, smulQ_smulQ, mul_one_div, div_self hmQ, smulQ_one]
      have hsum : vsum1 (vsum1 v vs) (v :: vs) = smulQ 2 (vsum1 v vs) := by
        show (v :: vs).foldl vadd (vsum1 v vs) = smulQ 2 (vsum1 v vs)
        rw [List.foldl_cons, foldl_vadd_comm]
        show vadd (vsum1 v vs) (vsum1 v vs) = smulQ 2 (vsum1 v vs)
        rw [vadd_self]
      have hc := hspec.2
      rw [hbase, hsum, hnpI] at hc
      have h2m : vs.length + 1 + (v :: vs).length = 2 * (vs.length + 1) := by
        simp only [List.length_cons]
        omega
      rw [h2m] at hc
      have h2mQ : ((2 * (vs.length + 1) : ℕ) : ℚ) ≠ 0 := by
        refine Nat.cast_ne_zero.mpr ?_
        omega
      have hfinal := smulQ_cancel _ h2mQ _ _ hc
      rw [smulQ_smulQ] at hfinal
      rw [hcf2, hbr.2, hxs, hm, hfinal]
      simp only [List.length_cons]
      congr 1
      push_cast
      have hn : ((vs.length : ℚ) + 1) ≠ 0 := by positivity
      field_simp

/-- C10 witness: on the fixture parent with two member ideas, `k = 2` and a
kmeans stub assigning both to cluster 0, child 0 ends with `n_points = 4` (twice
its two members) and centroid `[2]`, the mean of `[1]` and `[3]`. -/
theorem C10_recluster_child_state_witness :
    ∃ child, findTopic (reclusterParent exDbRec exParentRec 2
        (fun _ _ => [0, 0])).topics (exDbRec.nextId + 0) = some child ∧
      (([[(1 : ℚ)], [3]] : List Vec) = [] → child.n_points = 0 ∧
        child.centroid_embedding =
          (([exIdeaRecA, exIdeaRecB].map (fun i => i.embedding)).headD [])) ∧
      (∀ v vs, ([[(1 : ℚ)], [3]] : List Vec) = v :: vs →
        child.n_points = 2 * ([[(1 : ℚ)], [3]] : List Vec).length ∧
        child.centroid_embedding =
          smulQ (1 / ((([[(1 : ℚ)], [3]] : List Vec).length : ℕ) : ℚ)) (vsum1 v vs)) :=
  C10_recluster_child_state exDbRec exParentRec 2 (fun _ _ => [0, 0]) 0 1
    [exIdeaRecA, exIdeaRecB] [0, 0] [[(1 : ℚ)], [3]]
    (by with_unfolding_all rfl) rfl (by with_unfolding_all rfl)
    (by decide) (by with_unfolding_all decide)
    (by with_unfolding_all decide)

end Lumina
